import Mathlib

/-!
Verification of the option-declaration and parsing core of
src/ArgumentParser.hpp (classes OptionArgument and ArgumentParser).

Strings are embedded as lists of characters (Str), argument vectors as
functions from indices to optional strings (a C `argv` cell holding either a
string or a null pointer), and the std::map / std::set members as association
lists kept in key order (std::map iterates its entries sorted by key, which is
observable in the order of the missing-required-options list).  The
value-observer callback member (a std::function) takes no part in any claim
and is omitted from the handler record.  The scan loop of parseArguments is
embedded with an explicit iteration budget (`fuel`); the budget `argc` handed
to it by parseArguments is enough for every input, since each iteration moves
the index forward by at least one.
-/

/-- A C++ std::string, as its list of characters. -/
abbrev Str := List Char

/-- Lexicographic comparison of two strings, as std::map and std::set order
their keys. -/
def charsLt : Str → Str → Bool
  | _, [] => false
  | [], _ :: _ => true
  | a :: as, b :: bs =>
    if a.val < b.val then true
    else if b.val < a.val then false
    else charsLt as bs

/-- Case-insensitive string equality, as `strcasecmp(a, b) == 0`. -/
def eqIgnoreCase (a b : Str) : Bool :=
  a.map Char.toLower == b.map Char.toLower

/-- Whether a token begins with two dashes, as `strncmp(s, "--", 2) == 0`. -/
def startsDashDash : Str → Bool
  | '-' :: '-' :: _ => true
  | _ => false

/-- The reserved help flag. -/
def helpChars : Str := ("--help").data

/-- Lookup in an association list, as std::map::find. -/
def mapFind {α : Type} : List (Str × α) → Str → Option α
  | [], _ => none
  | (k, v) :: rest, key => if key = k then some v else mapFind rest key

/-- `m[key] = v` on a std::map: replace the held value when the key is
present, otherwise insert at the key's ordered position. -/
def mapAssign {α : Type} : List (Str × α) → Str → α → List (Str × α)
  | [], key, v => [(key, v)]
  | (k, w) :: rest, key, v =>
    if key = k then (k, v) :: rest
    else if charsLt key k then (key, v) :: (k, w) :: rest
    else (k, w) :: mapAssign rest key v

/-- std::map::insert: insert at the key's ordered position only when the key
is absent. -/
def mapInsertNew {α : Type} : List (Str × α) → Str → α → List (Str × α)
  | [], key, v => [(key, v)]
  | (k, w) :: rest, key, v =>
    if key = k then (k, w) :: rest
    else if charsLt key k then (key, v) :: (k, w) :: rest
    else (k, w) :: mapInsertNew rest key v

/-- `m[key] = v` on a std::map whose key is already present (as the source
guards with `find` before these assignments): the held value is replaced in
place and the map's entry order is unchanged. -/
def mapSetExisting {α : Type} : List (Str × α) → Str → α → List (Str × α)
  | [], _, _ => []
  | (k, w) :: rest, key, v =>
    if key = k then (key, v) :: rest
    else (k, w) :: mapSetExisting rest key v

/-- std::set membership. -/
def setMem (s : List Str) (key : Str) : Bool :=
  s.any (fun x => x = key)

/-- std::set::insert. -/
def setInsert : List Str → Str → List Str
  | [], key => [key]
  | k :: rest, key =>
    if key = k then k :: rest
    else if charsLt key k then key :: k :: rest
    else k :: setInsert rest key

/-- enum class ArgumentParser::OptionValue: whether an option flag expects a
value. -/
inductive OptionValue : Type
  | none
  | optional
  | required
deriving DecidableEq

/-- enum class ArgumentParser::OptionSelection: which value to keep when a
flag occurs more than once. -/
inductive OptionSelection : Type
  | take_first
  | take_last
  | take_all
deriving DecidableEq

/-- class OptionArgument: the values collected for one parsed option flag. -/
structure OptionArgument : Type where
  optionString : Str := []
  valueName : Str := []
  optionValues : List Str := []
deriving DecidableEq

/-- OptionArgument::size(). -/
def OptionArgument.size (oa : OptionArgument) : Nat :=
  oa.optionValues.length

/-- The what-string of the std::out_of_range thrown by
std::vector::at inside OptionArgument::value. -/
def msgIndexOutOfRange : Str := ("index out of range").data

/-- OptionArgument::value(index): the value at `index`, or the
std::out_of_range error when the index is not below size(). -/
def OptionArgument.value (oa : OptionArgument) (index : Nat) : Except Str Str :=
  match oa.optionValues.get? index with
  | Option.some v => Except.ok v
  | Option.none => Except.error msgIndexOutOfRange

/-- ArgumentParser::_OptionHandler: one registered option declaration.  The
std::function callback member is omitted (no claim concerns it). -/
structure OptionHandler : Type where
  defaultStringValue : Str := []
  valueName : Str := []
  valueRequired : OptionValue := OptionValue.optional
  selection : OptionSelection := OptionSelection.take_last
  helpString : Str := []
  requiredOption : Bool := false
deriving DecidableEq

/-- class ArgumentParser: the registry (handler map, claimed value names,
required-flag tracking) and the derived parse results. -/
structure ArgumentParser : Type where
  applicationDescription : Str := []
  optionsHandlerMap : List (Str × OptionHandler) := []
  optionsValueNames : List Str := []
  requiredOptions : List (Str × Bool) := []
  parsedOptions : List (Str × OptionArgument) := []
  nonOptionArguments : List Str := []
deriving DecidableEq

/-- Whether an arity mode expects a value, the condition
`OptionValue::required == v or OptionValue::optional == v` the source
repeats. -/
def takesValue : OptionValue → Bool
  | OptionValue.required => true
  | OptionValue.optional => true
  | OptionValue.none => false

def msgEmptyOption : Str := ("Option string may not be empty").data

def msgOnlyDashes : Str := ("Option string must have more than just \"--\"").data

def msgHelpReserved : Str :=
  ("The normalized option string may not be \"--help\"").data

def msgValueNameEmpty : Str :=
  ("The valueName may not be the empty string for option flags with an optional or required value").data

def msgValueNameClaimed (valueName : Str) : Str :=
  ("The given valueName \"").data ++ valueName ++ ("\" has already been claimed").data

def msgValueNameCollides (valueName flag : Str) : Str :=
  ("The given valueName \"").data ++ valueName
    ++ ("\" collides with the no_value option flag: ").data ++ flag

def msgFlagCollides (flag : Str) : Str :=
  ("The given option flag \"").data ++ flag
    ++ ("\" collides with the valueName: ").data ++ flag

def msgDuplicateOption (flag : Str) : Str :=
  ("The handler for option \"").data ++ flag ++ ("\" is already defined").data

/-- The flag-normalization step of ArgumentParser::addOption: reject the
empty string, prepend "--" when the string does not start with a dash,
prepend "-" when it starts with a single dash followed by a non-dash
character, pass strings of length at least three that start with "--"
through unchanged, and reject "-" and "--". -/
def normalizeOptionString (optionString : Str) : Except Str Str :=
  match optionString with
  | [] => Except.error msgEmptyOption
  | c0 :: rest =>
    if c0 = '-' then
      match rest with
      | [] => Except.error msgOnlyDashes
      | c1 :: rest2 =>
        if c1 = '-' then
          match rest2 with
          | [] => Except.error msgOnlyDashes
          | _ :: _ => Except.ok (c0 :: c1 :: rest2)
        else Except.ok ('-' :: c0 :: c1 :: rest2)
    else Except.ok ('-' :: '-' :: c0 :: rest)

/-- The tail of ArgumentParser::addOption after all value-name checks: the
duplicate-handler check, then the construction and storage of the handler,
the claiming of the value name, and the required-flag tracking entry. -/
def ArgumentParser.storeOption (p : ArgumentParser) (normalized valueName : Str)
    (required : Bool) (helpString : Str) (valueRequired : OptionValue)
    (selection : OptionSelection) (defaultValue : Str) :
    Option Str × ArgumentParser :=
  if (mapFind p.optionsHandlerMap normalized).isSome then
    (some (msgDuplicateOption normalized), p)
  else
    let handler : OptionHandler :=
      { defaultStringValue := defaultValue
        valueName := if takesValue valueRequired then valueName else []
        valueRequired := valueRequired
        selection := selection
        helpString := helpString
        requiredOption := required }
    let p1 : ArgumentParser :=
      if takesValue valueRequired then
        { p with optionsValueNames := setInsert p.optionsValueNames valueName }
      else p
    let p2 : ArgumentParser :=
      { p1 with optionsHandlerMap := mapAssign p1.optionsHandlerMap normalized handler }
    let p3 : ArgumentParser :=
      if required then
        { p2 with requiredOptions := mapAssign p2.requiredOptions normalized false }
      else p2
    (none, p3)

/-- ArgumentParser::addOption.  A thrown std::invalid_argument is returned as
`some message` together with the object state at the throw point. -/
def ArgumentParser.addOption (p : ArgumentParser) (optionString valueName : Str)
    (required : Bool) (helpString : Str) (valueRequired : OptionValue)
    (selection : OptionSelection) (defaultValue : Str) :
    Option Str × ArgumentParser :=
  match normalizeOptionString optionString with
  | Except.error e => (some e, p)
  | Except.ok normalized =>
    if eqIgnoreCase helpChars normalized then (some msgHelpReserved, p)
    else if takesValue valueRequired then
      if valueName = [] then (some msgValueNameEmpty, p)
      else if setMem p.optionsValueNames valueName then
        (some (msgValueNameClaimed valueName), p)
      else
        match mapFind p.optionsHandlerMap valueName with
        | Option.some other =>
          if other.valueRequired = OptionValue.none then
            (some (msgValueNameCollides valueName valueName), p)
          else
            p.storeOption normalized valueName required helpString valueRequired
              selection defaultValue
        | Option.none =>
          p.storeOption normalized valueName required helpString valueRequired
            selection defaultValue
    else if setMem p.optionsValueNames normalized then
      (some (msgFlagCollides normalized), p)
    else
      p.storeOption normalized valueName required helpString valueRequired
        selection defaultValue

/-- ArgumentParser::clear(): reset every required flag's seen marker to false
and drop the parsed options and the non-option arguments; the declarations
stay. -/
def ArgumentParser.clear (p : ArgumentParser) : ArgumentParser :=
  { p with
    requiredOptions := p.requiredOptions.map (fun kv => (kv.1, false))
    parsedOptions := []
    nonOptionArguments := [] }

/-- ArgumentParser::hasParsedOption. -/
def ArgumentParser.hasParsedOption (p : ArgumentParser) (optionOrValueName : Str) : Bool :=
  if startsDashDash optionOrValueName then
    match mapFind p.optionsHandlerMap optionOrValueName with
    | Option.none => false
    | Option.some handler =>
      if handler.valueName = [] then
        (mapFind p.parsedOptions optionOrValueName).isSome
      else
        (mapFind p.parsedOptions handler.valueName).isSome
  else
    (mapFind p.parsedOptions optionOrValueName).isSome

/-- The mutable members of ArgumentParser that the scan of parseArguments
updates, together with the diagnostics written to stderr. -/
structure ScanState : Type where
  requiredOptions : List (Str × Bool)
  parsedOptions : List (Str × OptionArgument)
  nonOptionArguments : List Str
  diagnostics : List Str
deriving DecidableEq

def msgLastArgNull : Str := ("The last argument must be NULL").data

def msgNullMiddle : Str :=
  ("Null pointer found in the middle of the arguments list.").data

def msgUnknownOption (flag : Str) : Str :=
  ("Unknown option flag: ").data ++ flag

def msgMissingValue (flag : Str) : Str :=
  ("Required value not present for option: ").data ++ flag

def addDiagnostic (st : ScanState) (m : Str) : ScanState :=
  { st with diagnostics := st.diagnostics ++ [m] }

/-- The `clearAndThrowInvalidArgument` label of parseArguments: drop the
parsed options and the non-option arguments and reset every required flag's
seen marker to false. -/
def clearScanState (st : ScanState) : ScanState :=
  { st with
    requiredOptions := st.requiredOptions.map (fun kv => (kv.1, false))
    parsedOptions := []
    nonOptionArguments := [] }

/-- The result-aggregation block of parseArguments (lines 841-873): for
optional/required arity, keyed by the handler's value name, a first
occurrence inserts a singleton entry and a later occurrence applies the
selection policy (take_first keeps the stored values, take_last overwrites
the value at position 0, take_all appends); for arity none the entry is keyed
by the flag itself and holds no values. -/
def aggregateOption (st : ScanState) (handler : OptionHandler)
    (argument optionValue : Str) : ScanState :=
  if takesValue handler.valueRequired then
    match mapFind st.parsedOptions handler.valueName with
    | Option.none =>
      { st with parsedOptions := mapInsertNew st.parsedOptions handler.valueName ⟨argument, handler.valueName, [optionValue]⟩ }
    | Option.some existing =>
      match handler.selection with
      | OptionSelection.take_first => st
      | OptionSelection.take_last =>
        { st with parsedOptions := mapSetExisting st.parsedOptions handler.valueName ⟨existing.optionString, existing.valueName, existing.optionValues.set 0 optionValue⟩ }
      | OptionSelection.take_all =>
        { st with parsedOptions := mapSetExisting st.parsedOptions handler.valueName ⟨existing.optionString, existing.valueName, existing.optionValues ++ [optionValue]⟩ }
  else
    { st with parsedOptions := mapAssign st.parsedOptions argument ⟨argument, [], []⟩ }

/-- The required-flag marking of parseArguments (lines 882-886): when the
examined flag is tracked as required, set its seen marker. -/
def markSeen (st : ScanState) (argument : Str) : ScanState :=
  if (mapFind st.requiredOptions argument).isSome then
    { st with requiredOptions := mapSetExisting st.requiredOptions argument true }
  else st

/-- One known flag's processing: aggregate its resolved value, then mark it
seen when required (the callback invocation between the two is not
modelled). -/
def processOption (st : ScanState) (handler : OptionHandler)
    (argument optionValue : Str) : ScanState :=
  markSeen (aggregateOption st handler argument optionValue) argument

/-- The effect of one iteration of the scan of parseArguments on the
examined index: stop on the help flag, stop on a null slot, or advance by
`1 + extra` positions (extra = 1 exactly when the next token was consumed as
this flag's value) with the updated state. -/
inductive StepOut : Type
  | helpFound : StepOut
  | nullFound : StepOut
  | advance : Nat → ScanState → StepOut
deriving DecidableEq

/-- The body of the scan loop of parseArguments at one index. -/
def scanStep (handlers : List (Str × OptionHandler)) (argv : Nat → Option Str)
    (index : Nat) (st : ScanState) : StepOut :=
  match argv index with
  | Option.none => StepOut.nullFound
  | Option.some argument =>
    if startsDashDash argument then
      if eqIgnoreCase helpChars argument then StepOut.helpFound
      else
        match mapFind handlers argument with
        | Option.none => StepOut.advance 0 (addDiagnostic st (msgUnknownOption argument))
        | Option.some handler =>
          match handler.valueRequired with
          | OptionValue.optional =>
            match argv (index + 1) with
            | Option.some nextToken =>
              if startsDashDash nextToken then
                StepOut.advance 0 (processOption st handler argument handler.defaultStringValue)
              else
                StepOut.advance 1 (processOption st handler argument nextToken)
            | Option.none =>
              StepOut.advance 0 (processOption st handler argument handler.defaultStringValue)
          | OptionValue.required =>
            match argv (index + 1) with
            | Option.none => StepOut.advance 0 (addDiagnostic st (msgMissingValue argument))
            | Option.some nextToken =>
              StepOut.advance 1 (processOption st handler argument nextToken)
          | OptionValue.none =>
            StepOut.advance 0 (processOption st handler argument handler.defaultStringValue)
    else
      StepOut.advance 0 { st with nonOptionArguments := st.nonOptionArguments ++ [argument] }

/-- How the scan of parseArguments ends: the end of the argument list, the
help short-circuit, or a null slot before the end (state already cleared). -/
inductive ScanResult : Type
  | done : ScanState → ScanResult
  | help : ScanState → ScanResult
  | malformed : ScanState → ScanResult
deriving DecidableEq

/-- The scan loop `for (int index(0); ++index < argc;)` of parseArguments.
`fuel` bounds the number of iterations; since every iteration advances the
index by at least one, the budget `argc` that parseArguments supplies is
never exhausted before the index reaches `argc`. -/
def scanLoop (handlers : List (Str × OptionHandler)) (argc : Nat)
    (argv : Nat → Option Str) : Nat → Nat → ScanState → ScanResult
  | 0, _, st => ScanResult.done st
  | fuel + 1, index, st =>
    if index < argc then
      match scanStep handlers argv index st with
      | StepOut.helpFound => ScanResult.help st
      | StepOut.nullFound => ScanResult.malformed (clearScanState st)
      | StepOut.advance extra st' => scanLoop handlers argc argv fuel (index + 1 + extra) st'
    else ScanResult.done st

/-- How a call of parseArguments returns to its caller. -/
inductive ParseOutcome : Type
  | normalReturn
  | helpExit
  | exitFailure (missing : List Str)
  | thrownMissingRequired (missing : List Str)
  | thrownInvalidArgument (msg : Str)
deriving DecidableEq

/-- Write the scan state back into the object's members. -/
def ArgumentParser.applyScan (p : ArgumentParser) (st : ScanState) : ArgumentParser :=
  { p with
    requiredOptions := st.requiredOptions
    parsedOptions := st.parsedOptions
    nonOptionArguments := st.nonOptionArguments }

/-- ArgumentParser::parseArguments.  The result is the outcome (normal
return, help exit, exit(EXIT_FAILURE), or a thrown exception), the object
state afterwards, and the diagnostics the call wrote to stderr. -/
def ArgumentParser.parseArguments (p : ArgumentParser) (argc : Nat)
    (argv : Nat → Option Str) (throwOnMissingOptions : Bool) :
    ParseOutcome × ArgumentParser × List Str :=
  if (argv argc).isSome then
    (ParseOutcome.thrownInvalidArgument msgLastArgNull, p, [])
  else
    let st0 : ScanState :=
      { requiredOptions := p.requiredOptions
        parsedOptions := p.parsedOptions
        nonOptionArguments := p.nonOptionArguments
        diagnostics := [] }
    match scanLoop p.optionsHandlerMap argc argv argc 1 st0 with
    | ScanResult.help st => (ParseOutcome.helpExit, p.applyScan st, st.diagnostics)
    | ScanResult.malformed st =>
      (ParseOutcome.thrownInvalidArgument msgNullMiddle, p.applyScan st, st.diagnostics)
    | ScanResult.done st =>
      let missing : List Str := (st.requiredOptions.filter (fun kv => !kv.2)).map Prod.fst
      if missing.isEmpty then (ParseOutcome.normalReturn, p.applyScan st, st.diagnostics)
      else if throwOnMissingOptions then
        (ParseOutcome.thrownMissingRequired missing, p.applyScan st, st.diagnostics)
      else
        (ParseOutcome.exitFailure missing, p.applyScan st, st.diagnostics)

/-- Modelled from the spec: the typed extraction `valueAs<T>` of §4.1 is not
present in src/ArgumentParser.hpp (OptionArgument there only exposes
`value`); the digit machinery below follows the spec's words: a
locale-independent, base-auto-detecting integer parser that saturates to the
type's bounds on overflow and yields zero on unparseable input.  Value of one
digit character, or 99 for a character that is no digit in any base up to
16. -/
def digitVal (c : Char) : Nat :=
  if '0' ≤ c ∧ c ≤ '9' then c.toNat - 48
  else if 'a' ≤ c ∧ c ≤ 'f' then c.toNat - 87
  else if 'A' ≤ c ∧ c ≤ 'F' then c.toNat - 55
  else 99

/-- Modelled from the spec: the value of a digit string in the given base,
or none when the string is empty or holds a character that is no digit of
the base. -/
def parseDigits (base : Nat) (ds : List Char) : Option Nat :=
  if ds = [] then none
  else if ds.all (fun c => digitVal c < base) then
    some (ds.foldl (fun acc c => acc * base + digitVal c) 0)
  else none

/-- The value of a decimal digit string. -/
def decimalValue (ds : List Char) : Nat :=
  ds.foldl (fun acc c => acc * 10 + digitVal c) 0

/-- Modelled from the spec: strip one leading sign character. -/
def splitSign (s : Str) : Bool × Str :=
  match s with
  | [] => (false, [])
  | c :: r => if c = '-' then (true, r) else if c = '+' then (false, r) else (false, c :: r)

/-- Modelled from the spec: base auto-detection as strtol with base 0 does
it: a leading "0x"/"0X" selects base 16, a bare leading "0" selects base 8,
anything else base 10. -/
def detectBase (body : Str) : Nat × Str :=
  match body with
  | [] => (10, [])
  | c :: r =>
    if c = '0' then
      match r with
      | [] => (8, [])
      | d :: r2 => if d = 'x' ∨ d = 'X' then (16, r2) else (8, d :: r2)
    else (10, c :: r)

/-- Modelled from the spec: parse an integer with base auto-detection,
saturating to [minT, maxT] on overflow and yielding 0 on unparseable
input. -/
def parseSaturatingInt (minT maxT : Int) (s : Str) : Int :=
  let sb : Bool × Str := splitSign s
  let bd : Nat × Str := detectBase sb.2
  match parseDigits bd.1 bd.2 with
  | Option.none => 0
  | Option.some n =>
    let v : Int := if sb.1 then -(n : Int) else (n : Int)
    if maxT < v then maxT else if v < minT then minT else v

/-- Modelled from the spec: `valueAs<T>(index)` for an integral T with range
[minT, maxT]: the saturating conversion of the string at `index`, or the
index-out-of-range error exactly when `index` is not below size(). -/
def OptionArgument.valueAsInt (oa : OptionArgument) (minT maxT : Int)
    (index : Nat) : Except Str Int :=
  match oa.optionValues.get? index with
  | Option.some s => Except.ok (parseSaturatingInt minT maxT s)
  | Option.none => Except.error msgIndexOutOfRange


section Fixtures

/-- An argv array given as a list of cells; positions past the list hold
null. -/
def argvStr (l : List (Option Str)) : Nat → Option Str :=
  fun i => l.getD i none

/-- The handler that addOption builds for a required flag of required arity
with value name "inv". -/
def demoHandlerIn : OptionHandler :=
  ⟨[], ("inv").data, OptionValue.required, OptionSelection.take_last, [], true⟩

/-- A registry with the single required flag --in (arity required, value
name "inv"). -/
def demoParserIn : ArgumentParser :=
  { applicationDescription := []
    optionsHandlerMap := [(("--in").data, demoHandlerIn)]
    optionsValueNames := [("inv").data]
    requiredOptions := [(("--in").data, false)]
    parsedOptions := []
    nonOptionArguments := [] }

/-- demoParserIn is exactly what one addOption call builds from a fresh
parser. -/
theorem demoParserIn_built :
    (({} : ArgumentParser).addOption ("--in").data ("inv").data true []
      OptionValue.required OptionSelection.take_last []) = (Option.none, demoParserIn) := by
  decide

/-- A registry with a non-required flag --a of required arity and the
required flag --in, as two addOption calls build it. -/
def demoParserSwallow : ArgumentParser :=
  ((({} : ArgumentParser).addOption ("--a").data ("av").data false []
      OptionValue.required OptionSelection.take_last []).2.addOption
    ("--in").data ("inv").data true []
      OptionValue.required OptionSelection.take_last []).2

/-- demoParserIn with results of an earlier successful parse still stored. -/
def demoParserPrior : ArgumentParser :=
  { demoParserIn with
    parsedOptions := [(("inv").data, ⟨("--in").data, ("inv").data, [("v").data]⟩)]
    requiredOptions := [(("--in").data, true)] }

end Fixtures

section MapLemmas

variable {α : Type}

theorem mapFind_mapAssign_self (m : List (Str × α)) (k : Str) (v : α) :
    mapFind (mapAssign m k v) k = some v := by
  induction m with
  | nil => simp [mapAssign, mapFind]
  | cons kv rest ih =>
    obtain ⟨k0, w⟩ := kv
    by_cases h : k = k0
    · subst h
      simp [mapAssign, mapFind]
    · by_cases hlt : charsLt k k0
      · simp [mapAssign, h, hlt, mapFind]
      · simp [mapAssign, h, hlt, mapFind, ih]

theorem mapFind_mapAssign_ne (m : List (Str × α)) (k k' : Str) (v : α)
    (h : k' ≠ k) : mapFind (mapAssign m k v) k' = mapFind m k' := by
  induction m with
  | nil => simp [mapAssign, mapFind, h]
  | cons kv rest ih =>
    obtain ⟨k0, w⟩ := kv
    by_cases he : k = k0
    · subst he
      simp [mapAssign, mapFind, h]
    · by_cases hlt : charsLt k k0
      · simp [mapAssign, he, hlt, mapFind, h]
      · simp [mapAssign, he, hlt, mapFind, ih]

theorem mapSetExisting_keys (m : List (Str × α)) (k : Str) (v : α) :
    (mapSetExisting m k v).map Prod.fst = m.map Prod.fst := by
  induction m with
  | nil => simp [mapSetExisting]
  | cons kv rest ih =>
    obtain ⟨k0, w⟩ := kv
    by_cases h : k = k0
    · subst h
      simp [mapSetExisting]
    · simp [mapSetExisting, h, ih]

theorem mapFind_mapSetExisting_self (m : List (Str × α)) (k : Str) (v : α)
    (h : (mapFind m k).isSome) :
    mapFind (mapSetExisting m k v) k = some v := by
  induction m with
  | nil => simp [mapFind] at h
  | cons kv rest ih =>
    obtain ⟨k0, w⟩ := kv
    by_cases he : k = k0
    · subst he
      simp [mapSetExisting, mapFind]
    · simp [mapFind, he] at h
      simp [mapSetExisting, he, mapFind, ih h]

theorem mapFind_mapSetExisting_ne (m : List (Str × α)) (k k' : Str) (v : α)
    (h : k' ≠ k) : mapFind (mapSetExisting m k v) k' = mapFind m k' := by
  induction m with
  | nil => simp [mapSetExisting]
  | cons kv rest ih =>
    obtain ⟨k0, w⟩ := kv
    by_cases he : k = k0
    · subst he
      simp [mapSetExisting, mapFind, h]
    · simp [mapSetExisting, he, mapFind, ih]

theorem mapFind_mapInsertNew_absent (m : List (Str × α)) (k : Str) (v : α)
    (h : mapFind m k = none) :
    mapFind (mapInsertNew m k v) k = some v := by
  induction m with
  | nil => simp [mapInsertNew, mapFind]
  | cons kv rest ih =>
    obtain ⟨k0, w⟩ := kv
    by_cases he : k = k0
    · subst he
      simp [mapFind] at h
    · simp [mapFind, he] at h
      by_cases hlt : charsLt k k0
      · simp [mapInsertNew, he, hlt, mapFind]
      · simp [mapInsertNew, he, hlt, mapFind, ih h]

theorem mapFind_mapInsertNew_isSome (m : List (Str × α)) (k : Str) (v : α) :
    (mapFind (mapInsertNew m k v) k).isSome := by
  induction m with
  | nil => simp [mapInsertNew, mapFind]
  | cons kv rest ih =>
    obtain ⟨k0, w⟩ := kv
    by_cases he : k = k0
    · subst he
      simp [mapInsertNew, mapFind]
    · by_cases hlt : charsLt k k0
      · simp [mapInsertNew, he, hlt, mapFind]
      · simp [mapInsertNew, he, hlt, mapFind, ih]

theorem mapFind_mapInsertNew_ne (m : List (Str × α)) (k k' : Str) (v : α)
    (h : k' ≠ k) : mapFind (mapInsertNew m k v) k' = mapFind m k' := by
  induction m with
  | nil => simp [mapInsertNew, mapFind, h]
  | cons kv rest ih =>
    obtain ⟨k0, w⟩ := kv
    by_cases he : k = k0
    · subst he
      simp [mapInsertNew, mapFind]
    · by_cases hlt : charsLt k k0
      · simp [mapInsertNew, he, hlt, mapFind, h]
      · simp [mapInsertNew, he, hlt, mapFind, ih]

theorem mapFind_mem (m : List (Str × α)) (k : Str) (v : α)
    (h : mapFind m k = some v) : (k, v) ∈ m := by
  induction m with
  | nil => simp [mapFind] at h
  | cons kv rest ih =>
    obtain ⟨k0, w⟩ := kv
    rw [List.mem_cons]
    by_cases he : k = k0
    · subst he
      have hw : some w = some v := by
        rw [← h]
        simp [mapFind]
      left
      rw [Option.some.injEq] at hw
      rw [hw]
    · have hr : mapFind rest k = some v := by
        rw [← h]
        simp [mapFind, he]
      exact Or.inr (ih hr)

theorem mapFind_isSome_iff_mem_keys (m : List (Str × α)) (k : Str) :
    (mapFind m k).isSome ↔ k ∈ m.map Prod.fst := by
  induction m with
  | nil => simp [mapFind]
  | cons kv rest ih =>
    obtain ⟨k0, w⟩ := kv
    rw [List.map_cons, List.mem_cons]
    by_cases he : k = k0
    · subst he
      have hfind : mapFind ((k, w) :: rest) k = some w := by
        simp [mapFind]
      rw [hfind]
      constructor
      · intro _
        exact Or.inl rfl
      · intro _
        rfl
    · have hfind : mapFind ((k0, w) :: rest) k = mapFind rest k := by
        simp [mapFind, he]
      rw [hfind, ih]
      constructor
      · exact Or.inr
      · intro hor
        rcases hor with hor | hor
        · exact absurd hor he
        · exact hor

theorem mapFind_of_mem_nodup (m : List (Str × α)) (k : Str) (v : α)
    (hnd : (m.map Prod.fst).Nodup) (h : (k, v) ∈ m) : mapFind m k = some v := by
  induction m with
  | nil => simp at h
  | cons kv rest ih =>
    obtain ⟨k0, w⟩ := kv
    rw [List.map_cons, List.nodup_cons] at hnd
    obtain ⟨hn1, hn2⟩ := hnd
    rw [List.mem_cons] at h
    rcases h with h | h
    · rw [Prod.mk.injEq] at h
      obtain ⟨h1, h2⟩ := h
      subst h1
      subst h2
      simp [mapFind]
    · have hk : k ≠ k0 := by
        intro he
        have hmem : k ∈ rest.map Prod.fst := List.mem_map_of_mem Prod.fst h
        rw [he] at hmem
        exact hn1 hmem
      simp only [mapFind, if_neg hk]
      exact ih hn2 h

end MapLemmas

section StepLemmas

theorem aggregateOption_requiredOptions (st : ScanState) (handler : OptionHandler)
    (argument optionValue : Str) :
    (aggregateOption st handler argument optionValue).requiredOptions = st.requiredOptions := by
  unfold aggregateOption
  split
  · split
    · rfl
    · split <;> rfl
  · rfl

theorem aggregateOption_parsed_isSome_mono (st : ScanState) (handler : OptionHandler)
    (argument optionValue k : Str)
    (h : (mapFind st.parsedOptions k).isSome) :
    (mapFind (aggregateOption st handler argument optionValue).parsedOptions k).isSome := by
  unfold aggregateOption
  split
  · split
    next hf =>
      dsimp only
      by_cases hk : k = handler.valueName
      · rw [hk]
        exact mapFind_mapInsertNew_isSome st.parsedOptions handler.valueName _
      · rw [mapFind_mapInsertNew_ne st.parsedOptions handler.valueName k _ hk]
        exact h
    next existing hf =>
      split
      · exact h
      · dsimp only
        by_cases hk : k = handler.valueName
        · rw [hk, mapFind_mapSetExisting_self st.parsedOptions handler.valueName _ (by rw [hf]; rfl)]
          rfl
        · rw [mapFind_mapSetExisting_ne st.parsedOptions handler.valueName k _ hk]
          exact h
      · dsimp only
        by_cases hk : k = handler.valueName
        · rw [hk, mapFind_mapSetExisting_self st.parsedOptions handler.valueName _ (by rw [hf]; rfl)]
          rfl
        · rw [mapFind_mapSetExisting_ne st.parsedOptions handler.valueName k _ hk]
          exact h
  · dsimp only
    by_cases hk : k = argument
    · rw [hk, mapFind_mapAssign_self]
      rfl
    · rw [mapFind_mapAssign_ne st.parsedOptions argument k _ hk]
      exact h

theorem aggregateOption_parsed_key_present (st : ScanState) (handler : OptionHandler)
    (argument optionValue : Str) :
    (mapFind (aggregateOption st handler argument optionValue).parsedOptions
      (if takesValue handler.valueRequired then handler.valueName else argument)).isSome := by
  unfold aggregateOption
  by_cases ht : takesValue handler.valueRequired = true
  · rw [if_pos ht, if_pos ht]
    cases hf : mapFind st.parsedOptions handler.valueName with
    | none =>
      exact mapFind_mapInsertNew_isSome st.parsedOptions handler.valueName _
    | some existing =>
      cases handler.selection
      · rw [hf]
        rfl
      · dsimp only
        rw [mapFind_mapSetExisting_self st.parsedOptions handler.valueName _ (by rw [hf]; rfl)]
        rfl
      · dsimp only
        rw [mapFind_mapSetExisting_self st.parsedOptions handler.valueName _ (by rw [hf]; rfl)]
        rfl
  · rw [if_neg ht, if_neg ht]
    dsimp only
    rw [mapFind_mapAssign_self]
    rfl

theorem markSeen_parsedOptions (st : ScanState) (a : Str) :
    (markSeen st a).parsedOptions = st.parsedOptions := by
  unfold markSeen
  split <;> rfl

theorem markSeen_diagnostics (st : ScanState) (a : Str) :
    (markSeen st a).diagnostics = st.diagnostics := by
  unfold markSeen
  split <;> rfl

theorem markSeen_req_keys (st : ScanState) (a : Str) :
    (markSeen st a).requiredOptions.map Prod.fst = st.requiredOptions.map Prod.fst := by
  unfold markSeen
  split
  · exact mapSetExisting_keys st.requiredOptions a true
  · rfl

theorem markSeen_find_true (st : ScanState) (a f : Str)
    (h : mapFind st.requiredOptions f = some true) :
    mapFind (markSeen st a).requiredOptions f = some true := by
  unfold markSeen
  split
  next hs =>
    by_cases hf : f = a
    · rw [hf]
      exact mapFind_mapSetExisting_self st.requiredOptions a true hs
    · rw [mapFind_mapSetExisting_ne st.requiredOptions a f true hf]
      exact h
  next hs => exact h

theorem markSeen_find_ne (st : ScanState) (a f : Str) (h : f ≠ a) :
    mapFind (markSeen st a).requiredOptions f = mapFind st.requiredOptions f := by
  unfold markSeen
  split
  · exact mapFind_mapSetExisting_ne st.requiredOptions a f true h
  · rfl

theorem markSeen_find_self (st : ScanState) (a : Str)
    (h : (mapFind st.requiredOptions a).isSome) :
    mapFind (markSeen st a).requiredOptions a = some true := by
  unfold markSeen
  rw [if_pos h]
  exact mapFind_mapSetExisting_self st.requiredOptions a true h

theorem processOption_req_keys (st : ScanState) (handler : OptionHandler)
    (argument optionValue : Str) :
    (processOption st handler argument optionValue).requiredOptions.map Prod.fst
      = st.requiredOptions.map Prod.fst := by
  unfold processOption
  rw [markSeen_req_keys, aggregateOption_requiredOptions]

theorem processOption_find_true (st : ScanState) (handler : OptionHandler)
    (argument optionValue f : Str)
    (h : mapFind st.requiredOptions f = some true) :
    mapFind (processOption st handler argument optionValue).requiredOptions f = some true := by
  unfold processOption
  apply markSeen_find_true
  rw [aggregateOption_requiredOptions]
  exact h

theorem processOption_find_ne (st : ScanState) (handler : OptionHandler)
    (argument optionValue f : Str) (h : f ≠ argument) :
    mapFind (processOption st handler argument optionValue).requiredOptions f
      = mapFind st.requiredOptions f := by
  unfold processOption
  rw [markSeen_find_ne _ _ _ h, aggregateOption_requiredOptions]

theorem processOption_find_self (st : ScanState) (handler : OptionHandler)
    (argument optionValue : Str)
    (h : (mapFind st.requiredOptions argument).isSome) :
    mapFind (processOption st handler argument optionValue).requiredOptions argument
      = some true := by
  unfold processOption
  apply markSeen_find_self
  rw [aggregateOption_requiredOptions]
  exact h

theorem processOption_parsed_isSome_mono (st : ScanState) (handler : OptionHandler)
    (argument optionValue k : Str)
    (h : (mapFind st.parsedOptions k).isSome) :
    (mapFind (processOption st handler argument optionValue).parsedOptions k).isSome := by
  unfold processOption
  rw [markSeen_parsedOptions]
  exact aggregateOption_parsed_isSome_mono st handler argument optionValue k h

theorem processOption_parsed_key_present (st : ScanState) (handler : OptionHandler)
    (argument optionValue : Str) :
    (mapFind (processOption st handler argument optionValue).parsedOptions
      (if takesValue handler.valueRequired then handler.valueName else argument)).isSome := by
  unfold processOption
  rw [markSeen_parsedOptions]
  exact aggregateOption_parsed_key_present st handler argument optionValue

end StepLemmas

section ScanStepLemmas

theorem scanStep_null (handlers : List (Str × OptionHandler)) (argv : Nat → Option Str)
    (index : Nat) (st : ScanState) (h : argv index = none) :
    scanStep handlers argv index st = StepOut.nullFound := by
  unfold scanStep
  rw [h]

theorem scanStep_advance_invariants (handlers : List (Str × OptionHandler))
    (argv : Nat → Option Str) (index : Nat) (st : ScanState) (extra : Nat) (st' : ScanState)
    (h : scanStep handlers argv index st = StepOut.advance extra st') :
    st'.requiredOptions.map Prod.fst = st.requiredOptions.map Prod.fst ∧
    (∀ f, mapFind st.requiredOptions f = some true → mapFind st'.requiredOptions f = some true) ∧
    (∀ f, argv index ≠ some f → mapFind st'.requiredOptions f = mapFind st.requiredOptions f) ∧
    (∀ k, (mapFind st.parsedOptions k).isSome → (mapFind st'.parsedOptions k).isSome) ∧
    (extra = 0 ∨ (extra = 1 ∧ (argv (index + 1)).isSome)) ∧
    (argv index).isSome := by
  unfold scanStep at h
  split at h
  · exact absurd h (by simp)
  next argument hargv =>
    have hsome : (argv index).isSome := by
      rw [hargv]
      rfl
    split at h
    · split at h
      · exact absurd h (by simp)
      · split at h
        next hfind =>
          injection h with h1 h2
          subst h1
          subst h2
          refine ⟨rfl, fun f hf => hf, fun f _ => rfl, fun k hk => hk, Or.inl rfl, hsome⟩
        next handler hfind =>
          have hne_arg : ∀ f : Str, argv index ≠ some f → f ≠ argument := by
            intro f hne heq
            exact hne (by rw [heq]; exact hargv)
          split at h
          · -- optional arity
            split at h
            next nextToken hnext =>
              split at h
              · injection h with h1 h2
                subst h1
                subst h2
                exact ⟨processOption_req_keys st handler argument _,
                  fun f hf => processOption_find_true st handler argument _ f hf,
                  fun f hne => processOption_find_ne st handler argument _ f (hne_arg f hne),
                  fun k hk => processOption_parsed_isSome_mono st handler argument _ k hk,
                  Or.inl rfl, hsome⟩
              · injection h with h1 h2
                subst h1
                subst h2
                refine ⟨processOption_req_keys st handler argument _,
                  fun f hf => processOption_find_true st handler argument _ f hf,
                  fun f hne => processOption_find_ne st handler argument _ f (hne_arg f hne),
                  fun k hk => processOption_parsed_isSome_mono st handler argument _ k hk,
                  Or.inr ⟨rfl, by rw [hnext]; rfl⟩, hsome⟩
            next hnext =>
              injection h with h1 h2
              subst h1
              subst h2
              exact ⟨processOption_req_keys st handler argument _,
                fun f hf => processOption_find_true st handler argument _ f hf,
                fun f hne => processOption_find_ne st handler argument _ f (hne_arg f hne),
                fun k hk => processOption_parsed_isSome_mono st handler argument _ k hk,
                Or.inl rfl, hsome⟩
          · -- required arity
            split at h
            next hnext =>
              injection h with h1 h2
              subst h1
              subst h2
              refine ⟨rfl, fun f hf => hf, fun f _ => rfl, fun k hk => hk, Or.inl rfl, hsome⟩
            next nextToken hnext =>
              injection h with h1 h2
              subst h1
              subst h2
              refine ⟨processOption_req_keys st handler argument _,
                fun f hf => processOption_find_true st handler argument _ f hf,
                fun f hne => processOption_find_ne st handler argument _ f (hne_arg f hne),
                fun k hk => processOption_parsed_isSome_mono st handler argument _ k hk,
                Or.inr ⟨rfl, by rw [hnext]; rfl⟩, hsome⟩
          · -- no value expected
            injection h with h1 h2
            subst h1
            subst h2
            exact ⟨processOption_req_keys st handler argument _,
              fun f hf => processOption_find_true st handler argument _ f hf,
              fun f hne => processOption_find_ne st handler argument _ f (hne_arg f hne),
              fun k hk => processOption_parsed_isSome_mono st handler argument _ k hk,
              Or.inl rfl, hsome⟩
    · -- positional argument
      injection h with h1 h2
      subst h1
      subst h2
      refine ⟨rfl, fun f hf => hf, fun f _ => rfl, fun k hk => hk, Or.inl rfl, hsome⟩

end ScanStepLemmas

theorem scanStep_known_flag (handlers : List (Str × OptionHandler)) (argv : Nat → Option Str)
    (index : Nat) (st : ScanState) (argument : Str) (handler : OptionHandler)
    (hargv : argv index = some argument)
    (hdd : startsDashDash argument = true)
    (hhelp : eqIgnoreCase helpChars argument = false)
    (hfind : mapFind handlers argument = some handler)
    (hreq : handler.valueRequired = OptionValue.required → (argv (index + 1)).isSome) :
    ∃ extra optionValue, scanStep handlers argv index st
      = StepOut.advance extra (processOption st handler argument optionValue) := by
  unfold scanStep
  rw [hargv]
  dsimp only
  rw [if_pos hdd, if_neg (by rw [hhelp]; exact Bool.false_ne_true), hfind]
  dsimp only
  cases harity : handler.valueRequired with
  | optional =>
    cases hnext : argv (index + 1) with
    | none => exact ⟨0, handler.defaultStringValue, rfl⟩
    | some nextToken =>
      dsimp only
      by_cases hdd2 : startsDashDash nextToken = true
      · rw [if_pos hdd2]
        exact ⟨0, handler.defaultStringValue, rfl⟩
      · rw [if_neg hdd2]
        exact ⟨1, nextToken, rfl⟩
  | required =>
    obtain ⟨nextToken, hnext⟩ := Option.isSome_iff_exists.mp (hreq harity)
    rw [hnext]
    exact ⟨1, nextToken, rfl⟩
  | none =>
    exact ⟨0, handler.defaultStringValue, rfl⟩

theorem scanStep_not_null_not_help (handlers : List (Str × OptionHandler))
    (argv : Nat → Option Str) (index : Nat) (st : ScanState) (t : Str)
    (hargv : argv index = some t) (hhelp : eqIgnoreCase helpChars t = false) :
    ∃ extra st', scanStep handlers argv index st = StepOut.advance extra st' := by
  unfold scanStep
  rw [hargv]
  dsimp only
  by_cases hdd : startsDashDash t = true
  · rw [if_pos hdd, if_neg (by rw [hhelp]; exact Bool.false_ne_true)]
    cases hfind : mapFind handlers t with
    | none => exact ⟨0, _, rfl⟩
    | some handler =>
      dsimp only
      cases harity : handler.valueRequired with
      | optional =>
        cases hnext : argv (index + 1) with
        | none => exact ⟨0, _, rfl⟩
        | some nextToken =>
          dsimp only
          by_cases hdd2 : startsDashDash nextToken = true
          · rw [if_pos hdd2]
            exact ⟨0, _, rfl⟩
          · rw [if_neg hdd2]
            exact ⟨1, _, rfl⟩
      | required =>
        cases hnext : argv (index + 1) with
        | none => exact ⟨0, _, rfl⟩
        | some nextToken => exact ⟨1, _, rfl⟩
      | none => exact ⟨0, _, rfl⟩
  · rw [if_neg hdd]
    exact ⟨0, _, rfl⟩

/-- Under a well-formed argument list (no null slot before `argc`, no help
token), the scan runs to the end of the list; the key list of the
required-flag map is unchanged, a required flag none of the remaining tokens
spells keeps its seen state, and a seen marker once true stays true. -/
theorem scanLoop_completes (handlers : List (Str × OptionHandler)) (argc : Nat)
    (argv : Nat → Option Str) :
    ∀ fuel index st,
      argc ≤ fuel + index →
      (∀ j, index ≤ j → j < argc → (argv j).isSome) →
      (∀ j t, index ≤ j → j < argc → argv j = some t → eqIgnoreCase helpChars t = false) →
      ∃ stf, scanLoop handlers argc argv fuel index st = ScanResult.done stf ∧
        stf.requiredOptions.map Prod.fst = st.requiredOptions.map Prod.fst ∧
        (∀ f, (∀ j, index ≤ j → j < argc → argv j ≠ some f) →
          mapFind stf.requiredOptions f = mapFind st.requiredOptions f) ∧
        (∀ f, mapFind st.requiredOptions f = some true → mapFind stf.requiredOptions f = some true) := by
  intro fuel
  induction fuel with
  | zero =>
    intro index st hle hnull hhelp
    exact ⟨st, rfl, rfl, fun f _ => rfl, fun f hf => hf⟩
  | succ fuel ih =>
    intro index st hle hnull hhelp
    by_cases hidx : index < argc
    · have hsome : (argv index).isSome := hnull index le_rfl hidx
      obtain ⟨t, hargvt⟩ := Option.isSome_iff_exists.mp hsome
      have hhelpt : eqIgnoreCase helpChars t = false := hhelp index t le_rfl hidx hargvt
      obtain ⟨extra, st', hstep⟩ :=
        scanStep_not_null_not_help handlers argv index st t hargvt hhelpt
      obtain ⟨hkeys, htrue, hne, hparsed, hextra, hsome2⟩ :=
        scanStep_advance_invariants handlers argv index st extra st' hstep
      have hrw : scanLoop handlers argc argv (fuel + 1) index st
          = scanLoop handlers argc argv fuel (index + 1 + extra) st' := by
        simp only [scanLoop]
        rw [if_pos hidx, hstep]
      obtain ⟨stf, hrun, hkeys', hne', htrue'⟩ :=
        ih (index + 1 + extra) st' (by omega)
          (fun j h1 h2 => hnull j (by omega) h2)
          (fun j u h1 h2 hj => hhelp j u (by omega) h2 hj)
      refine ⟨stf, by rw [hrw]; exact hrun, by rw [hkeys', hkeys], ?habs, ?htr⟩
      · intro f habs
        rw [hne' f (fun j h1 h2 => habs j (by omega) h2)]
        exact hne f (fun hc => habs index le_rfl hidx hc)
      · intro f hf
        exact htrue' f (htrue f hf)
    · refine ⟨st, ?hrun, rfl, fun f _ => rfl, fun f hf => hf⟩
      simp only [scanLoop]
      rw [if_neg hidx]

/-- When a null slot sits before `argc` and no help token is examined first,
the scan reaches the null (a null is never consumed as a value, since both
value-consuming branches check for null first) and ends in the cleared
malformed state; the required-flag key list at that point is the initial
one. -/
theorem scanLoop_hits_null (handlers : List (Str × OptionHandler)) (argc : Nat)
    (argv : Nat → Option Str) :
    ∀ fuel index st,
      argc ≤ fuel + index →
      (∀ j t, index ≤ j → j < argc → argv j = some t → eqIgnoreCase helpChars t = false) →
      (∃ k, index ≤ k ∧ k < argc ∧ argv k = none) →
      ∃ stf, scanLoop handlers argc argv fuel index st = ScanResult.malformed (clearScanState stf) ∧
        stf.requiredOptions.map Prod.fst = st.requiredOptions.map Prod.fst := by
  intro fuel
  induction fuel with
  | zero =>
    intro index st hle hhelp hex
    obtain ⟨k, hk1, hk2, hk3⟩ := hex
    exfalso
    omega
  | succ fuel ih =>
    intro index st hle hhelp hex
    obtain ⟨k, hk1, hk2, hk3⟩ := hex
    have hidx : index < argc := by omega
    cases hargv : argv index with
    | none =>
      refine ⟨st, ?hrun, rfl⟩
      simp only [scanLoop]
      rw [if_pos hidx, scanStep_null handlers argv index st hargv]
    | some t =>
      have hkne : k ≠ index := by
        intro he
        rw [he, hargv] at hk3
        cases hk3
      have hhelpt : eqIgnoreCase helpChars t = false := hhelp index t le_rfl hidx hargv
      obtain ⟨extra, st', hstep⟩ :=
        scanStep_not_null_not_help handlers argv index st t hargv hhelpt
      obtain ⟨hkeys, _, _, _, hextra, _⟩ :=
        scanStep_advance_invariants handlers argv index st extra st' hstep
      have hk1' : index + 1 + extra ≤ k := by
        rcases hextra with hz | ⟨ho, hsome1⟩
        · omega
        · have hkne2 : k ≠ index + 1 := by
            intro he
            rw [he] at hk3
            rw [hk3] at hsome1
            cases hsome1
          omega
      have hrw : scanLoop handlers argc argv (fuel + 1) index st
          = scanLoop handlers argc argv fuel (index + 1 + extra) st' := by
        simp only [scanLoop]
        rw [if_pos hidx, hstep]
      obtain ⟨stf, hrun, hkeys'⟩ :=
        ih (index + 1 + extra) st' (by omega)
          (fun j u h1 h2 hj => hhelp j u (by omega) h2 hj)
          ⟨k, hk1', hk2, hk3⟩
      exact ⟨stf, by rw [hrw]; exact hrun, by rw [hkeys', hkeys]⟩

theorem scanStep_positional (handlers : List (Str × OptionHandler)) (argv : Nat → Option Str)
    (index : Nat) (st : ScanState) (t : Str)
    (hargv : argv index = some t) (hdd : startsDashDash t = false) :
    scanStep handlers argv index st
      = StepOut.advance 0 { st with nonOptionArguments := st.nonOptionArguments ++ [t] } := by
  unfold scanStep
  rw [hargv]
  dsimp only
  rw [if_neg (by rw [hdd]; exact Bool.false_ne_true)]

theorem scanStep_known_flag2 (handlers : List (Str × OptionHandler)) (argv : Nat → Option Str)
    (index : Nat) (st : ScanState) (argument : Str) (handler : OptionHandler)
    (hargv : argv index = some argument)
    (hdd : startsDashDash argument = true)
    (hhelp : eqIgnoreCase helpChars argument = false)
    (hfind : mapFind handlers argument = some handler)
    (hreqn : handler.valueRequired = OptionValue.required →
      ∃ nt, argv (index + 1) = some nt ∧ startsDashDash nt = false) :
    ∃ extra optionValue, scanStep handlers argv index st
      = StepOut.advance extra (processOption st handler argument optionValue) ∧
      (extra = 0 ∨ (extra = 1 ∧ ∃ u, argv (index + 1) = some u ∧ startsDashDash u = false)) := by
  unfold scanStep
  rw [hargv]
  dsimp only
  rw [if_pos hdd, if_neg (by rw [hhelp]; exact Bool.false_ne_true), hfind]
  dsimp only
  cases harity : handler.valueRequired with
  | optional =>
    cases hnext : argv (index + 1) with
    | none => exact ⟨0, handler.defaultStringValue, rfl, Or.inl rfl⟩
    | some nextToken =>
      dsimp only
      by_cases hdd2 : startsDashDash nextToken = true
      · rw [if_pos hdd2]
        exact ⟨0, handler.defaultStringValue, rfl, Or.inl rfl⟩
      · rw [if_neg hdd2]
        have hdd2f : startsDashDash nextToken = false := by
          cases hb : startsDashDash nextToken
          · rfl
          · exact absurd hb hdd2
        exact ⟨1, nextToken, rfl, Or.inr ⟨rfl, nextToken, rfl, hdd2f⟩⟩
  | required =>
    obtain ⟨nt, hnext, hntf⟩ := hreqn harity
    rw [hnext]
    exact ⟨1, nt, rfl, Or.inr ⟨rfl, nt, rfl, hntf⟩⟩
  | none =>
    exact ⟨0, handler.defaultStringValue, rfl, Or.inl rfl⟩

/-- The central invariant of the scan for well-behaved inputs: no null slot,
every flag token registered and not the help flag, and every occurrence of a
required-arity flag followed by a non-flag token.  Then the scan runs to the
end; required keys are unchanged, seen markers are monotone, every required
flag with a remaining occurrence ends marked seen, parsed entries persist,
and every registered flag with a remaining occurrence ends with its
result-map entry present (under its value name, or under the flag itself for
arity none). -/
theorem scanLoop_marks_all (handlers : List (Str × OptionHandler)) (argc : Nat)
    (argv : Nat → Option Str)
    (hW1 : ∀ f handler, mapFind handlers f = some handler →
      startsDashDash f = true ∧ eqIgnoreCase helpChars f = false) :
    ∀ fuel index st,
      argc ≤ fuel + index →
      (∀ j, index ≤ j → j < argc → (argv j).isSome) →
      (∀ j t, index ≤ j → j < argc → argv j = some t → startsDashDash t = true →
        (mapFind handlers t).isSome ∧ eqIgnoreCase helpChars t = false) →
      (∀ j t handler, index ≤ j → j < argc → argv j = some t →
        mapFind handlers t = some handler → handler.valueRequired = OptionValue.required →
        ∃ nt, argv (j + 1) = some nt ∧ startsDashDash nt = false) →
      ∃ stf, scanLoop handlers argc argv fuel index st = ScanResult.done stf ∧
        stf.requiredOptions.map Prod.fst = st.requiredOptions.map Prod.fst ∧
        (∀ f, mapFind st.requiredOptions f = some true → mapFind stf.requiredOptions f = some true) ∧
        (∀ f, (mapFind st.requiredOptions f).isSome →
          (∃ j, index ≤ j ∧ j < argc ∧ argv j = some f) →
          (mapFind handlers f).isSome →
          mapFind stf.requiredOptions f = some true) ∧
        (∀ k, (mapFind st.parsedOptions k).isSome → (mapFind stf.parsedOptions k).isSome) ∧
        (∀ f handler, mapFind handlers f = some handler →
          (∃ j, index ≤ j ∧ j < argc ∧ argv j = some f) →
          (mapFind stf.parsedOptions (if takesValue handler.valueRequired then handler.valueName else f)).isSome) := by
  intro fuel
  induction fuel with
  | zero =>
    intro index st hle hnull hreg hreqn
    refine ⟨st, rfl, rfl, fun f hf => hf, ?noOcc, fun k hk => hk, ?noOcc2⟩
    · intro f _ hocc _
      obtain ⟨j, hj1, hj2, _⟩ := hocc
      exfalso
      omega
    · intro f handler _ hocc
      obtain ⟨j, hj1, hj2, _⟩ := hocc
      exfalso
      omega
  | succ fuel ih =>
    intro index st hle hnull hreg hreqn
    by_cases hidx : index < argc
    · have hsome : (argv index).isSome := hnull index le_rfl hidx
      obtain ⟨t, hargvt⟩ := Option.isSome_iff_exists.mp hsome
      by_cases hddt : startsDashDash t = true
      · -- a flag token: by the preconditions it is registered and not help
        obtain ⟨hfindt, hhelpt⟩ := hreg index t le_rfl hidx hargvt hddt
        obtain ⟨handlerT, hfindT⟩ := Option.isSome_iff_exists.mp hfindt
        obtain ⟨extra, optionValue, hstep, hcons⟩ :=
          scanStep_known_flag2 handlers argv index st t handlerT hargvt hddt hhelpt hfindT
            (fun hr => hreqn index t handlerT le_rfl hidx hargvt hfindT hr)
        have hrw : scanLoop handlers argc argv (fuel + 1) index st
            = scanLoop handlers argc argv fuel (index + 1 + extra)
                (processOption st handlerT t optionValue) := by
          simp only [scanLoop]
          rw [if_pos hidx, hstep]
        have hextra1 : extra ≤ 1 := by
          rcases hcons with hz | ⟨ho, _⟩
          · omega
          · omega
        obtain ⟨stf, hrun, ihkeys, ihtrue, ihmark, ihmono, ihkey⟩ :=
          ih (index + 1 + extra) (processOption st handlerT t optionValue) (by omega)
            (fun j h1 h2 => hnull j (by omega) h2)
            (fun j u h1 h2 hj hd => hreg j u (by omega) h2 hj hd)
            (fun j u hh h1 h2 hj hf hr => hreqn j u hh (by omega) h2 hj hf hr)
        have hjump : ∀ f : Str, startsDashDash f = true → f ≠ t →
            ∀ j, index ≤ j → j < argc → argv j = some f → index + 1 + extra ≤ j := by
          intro f hfd hft j hj1 hj2 hj3
          have hjne : j ≠ index := by
            intro he
            rw [he, hargvt] at hj3
            exact hft (Option.some.inj hj3).symm
          rcases hcons with hz | ⟨hone, u, hu, hud⟩
          · omega
          · have hjne2 : j ≠ index + 1 := by
              intro he
              rw [he, hu] at hj3
              have huf : u = f := Option.some.inj hj3
              rw [huf] at hud
              rw [hud] at hfd
              cases hfd
            omega
        refine ⟨stf, by rw [hrw]; exact hrun, ?k1, ?k2, ?k3, ?k4, ?k5⟩
        · rw [ihkeys, processOption_req_keys]
        · intro f hf
          exact ihtrue f (processOption_find_true st handlerT t optionValue f hf)
        · intro f hfs hocc hregf
          obtain ⟨j, hj1, hj2, hj3⟩ := hocc
          by_cases hft : f = t
          · rw [hft]
            rw [hft] at hfs
            exact ihtrue t (processOption_find_self st handlerT t optionValue hfs)
          · obtain ⟨hf0, hfind_f⟩ := Option.isSome_iff_exists.mp hregf
            have hW1f := hW1 f hf0 hfind_f
            have hjge : index + 1 + extra ≤ j := hjump f hW1f.1 hft j hj1 hj2 hj3
            have hfs' : (mapFind (processOption st handlerT t optionValue).requiredOptions f).isSome := by
              rw [mapFind_isSome_iff_mem_keys, processOption_req_keys,
                ← mapFind_isSome_iff_mem_keys]
              exact hfs
            exact ihmark f hfs' ⟨j, hjge, hj2, hj3⟩ hregf
        · intro k hk
          exact ihmono k (processOption_parsed_isSome_mono st handlerT t optionValue k hk)
        · intro f handler_f hfind_f hocc
          obtain ⟨j, hj1, hj2, hj3⟩ := hocc
          by_cases hft : f = t
          · have heq : handler_f = handlerT := by
              rw [hft] at hfind_f
              rw [hfind_f] at hfindT
              exact Option.some.inj hfindT
            rw [hft, heq]
            exact ihmono _ (processOption_parsed_key_present st handlerT t optionValue)
          · have hW1f := hW1 f handler_f hfind_f
            have hjge : index + 1 + extra ≤ j := hjump f hW1f.1 hft j hj1 hj2 hj3
            exact ihkey f handler_f hfind_f ⟨j, hjge, hj2, hj3⟩
      · -- a positional token
        have hddf : startsDashDash t = false := by
          cases hb : startsDashDash t
          · rfl
          · exact absurd hb hddt
        have hstep := scanStep_positional handlers argv index st t hargvt hddf
        have hrw : scanLoop handlers argc argv (fuel + 1) index st
            = scanLoop handlers argc argv fuel (index + 1)
                { st with nonOptionArguments := st.nonOptionArguments ++ [t] } := by
          simp only [scanLoop]
          rw [if_pos hidx, hstep]
        obtain ⟨stf, hrun, ihkeys, ihtrue, ihmark, ihmono, ihkey⟩ :=
          ih (index + 1) { st with nonOptionArguments := st.nonOptionArguments ++ [t] } (by omega)
            (fun j h1 h2 => hnull j (by omega) h2)
            (fun j u h1 h2 hj hd => hreg j u (by omega) h2 hj hd)
            (fun j u hh h1 h2 hj hf hr => hreqn j u hh (by omega) h2 hj hf hr)
        have hjump : ∀ f : Str, startsDashDash f = true →
            ∀ j, index ≤ j → j < argc → argv j = some f → index + 1 ≤ j := by
          intro f hfd j hj1 hj2 hj3
          have hjne : j ≠ index := by
            intro he
            rw [he, hargvt] at hj3
            have : t = f := Option.some.inj hj3
            rw [this] at hddf
            rw [hddf] at hfd
            cases hfd
          omega
        refine ⟨stf, by rw [hrw]; exact hrun, ihkeys, ihtrue, ?p3, ihmono, ?p5⟩
        · intro f hfs hocc hregf
          obtain ⟨j, hj1, hj2, hj3⟩ := hocc
          obtain ⟨hf0, hfind_f⟩ := Option.isSome_iff_exists.mp hregf
          have hW1f := hW1 f hf0 hfind_f
          exact ihmark f hfs ⟨j, hjump f hW1f.1 j hj1 hj2 hj3, hj2, hj3⟩ hregf
        · intro f handler_f hfind_f hocc
          obtain ⟨j, hj1, hj2, hj3⟩ := hocc
          have hW1f := hW1 f handler_f hfind_f
          exact ihkey f handler_f hfind_f ⟨j, hjump f hW1f.1 j hj1 hj2 hj3, hj2, hj3⟩
    · refine ⟨st, ?hrunEnd, rfl, fun f hf => hf, ?noOccEnd, fun k hk => hk, ?noOccEnd2⟩
      · simp only [scanLoop]
        rw [if_neg hidx]
      · intro f _ hocc _
        obtain ⟨j, hj1, hj2, _⟩ := hocc
        exfalso
        omega
      · intro f handler _ hocc
        obtain ⟨j, hj1, hj2, _⟩ := hocc
        exfalso
        omega

section DigitLemmas

theorem parseSaturatingInt_decimal (minT maxT : Int) (ds : List Char)
    (hne : ds ≠ []) (hdigits : ∀ c ∈ ds, digitVal c < 10)
    (hhead : ds.head? ≠ some '0') (hmin : minT ≤ 0) :
    ((decimalValue ds : Int) ≤ maxT → parseSaturatingInt minT maxT ds = decimalValue ds) ∧
    (maxT < (decimalValue ds : Int) → parseSaturatingInt minT maxT ds = maxT) := by
  obtain ⟨c, r, rfl⟩ : ∃ c r, ds = c :: r := by
    cases ds with
    | nil => exact absurd rfl hne
    | cons c r => exact ⟨c, r, rfl⟩
  have hc : digitVal c < 10 := hdigits c (List.mem_cons_self c r)
  have hcd : c ≠ '-' := by
    intro he
    rw [he] at hc
    exact absurd hc (by decide)
  have hcp : c ≠ '+' := by
    intro he
    rw [he] at hc
    exact absurd hc (by decide)
  have hc0 : c ≠ '0' := by
    intro he
    rw [he] at hhead
    exact hhead rfl
  have hsplit : splitSign (c :: r) = (false, c :: r) := by
    unfold splitSign
    dsimp only
    rw [if_neg hcd, if_neg hcp]
  have hbase : detectBase (c :: r) = (10, c :: r) := by
    unfold detectBase
    dsimp only
    rw [if_neg hc0]
  have hpd : parseDigits 10 (c :: r) = some (decimalValue (c :: r)) := by
    unfold parseDigits
    rw [if_neg (by simp), if_pos (List.all_eq_true.mpr
      (fun x hx => decide_eq_true (hdigits x hx)))]
    rfl
  unfold parseSaturatingInt
  rw [hsplit]
  dsimp only
  rw [hbase]
  dsimp only
  rw [hpd]
  dsimp only
  rw [if_neg Bool.false_ne_true]
  constructor
  · intro hle
    rw [if_neg (not_lt.mpr hle), if_neg (by omega)]
  · intro hgt
    rw [if_pos hgt]

theorem parseSaturatingInt_negativeDecimal (minT maxT : Int) (ds : List Char)
    (hne : ds ≠ []) (hdigits : ∀ c ∈ ds, digitVal c < 10)
    (hhead : ds.head? ≠ some '0') (hmax : 0 ≤ maxT) :
    (minT ≤ -(decimalValue ds : Int) →
      parseSaturatingInt minT maxT ('-' :: ds) = -(decimalValue ds : Int)) ∧
    (-(decimalValue ds : Int) < minT →
      parseSaturatingInt minT maxT ('-' :: ds) = minT) := by
  obtain ⟨c, r, rfl⟩ : ∃ c r, ds = c :: r := by
    cases ds with
    | nil => exact absurd rfl hne
    | cons c r => exact ⟨c, r, rfl⟩
  have hc0 : c ≠ '0' := by
    intro he
    rw [he] at hhead
    exact hhead rfl
  have hsplit : splitSign ('-' :: c :: r) = (true, c :: r) := by
    unfold splitSign
    dsimp only
    rw [if_pos rfl]
  have hbase : detectBase (c :: r) = (10, c :: r) := by
    unfold detectBase
    dsimp only
    rw [if_neg hc0]
  have hpd : parseDigits 10 (c :: r) = some (decimalValue (c :: r)) := by
    unfold parseDigits
    rw [if_neg (by simp), if_pos (List.all_eq_true.mpr
      (fun x hx => decide_eq_true (hdigits x hx)))]
    rfl
  unfold parseSaturatingInt
  rw [hsplit]
  dsimp only
  rw [hbase]
  dsimp only
  rw [hpd]
  dsimp only
  rw [if_pos rfl]
  constructor
  · intro hge
    rw [if_neg (by omega), if_neg (not_lt.mpr hge)]
  · intro hlt
    rw [if_neg (by omega), if_pos hlt]

end DigitLemmas

section SelectionLemmas

theorem aggregateOption_found_take_first (st : ScanState) (handler : OptionHandler)
    (argument v : Str) (oa : OptionArgument)
    (harity : takesValue handler.valueRequired = true)
    (hsel : handler.selection = OptionSelection.take_first)
    (hf : mapFind st.parsedOptions handler.valueName = some oa) :
    aggregateOption st handler argument v = st := by
  unfold aggregateOption
  rw [if_pos harity, hf]
  dsimp only
  rw [hsel]

theorem aggregateOption_found_take_last (st : ScanState) (handler : OptionHandler)
    (argument v : Str) (oa : OptionArgument)
    (harity : takesValue handler.valueRequired = true)
    (hsel : handler.selection = OptionSelection.take_last)
    (hf : mapFind st.parsedOptions handler.valueName = some oa) :
    aggregateOption st handler argument v
      = { st with parsedOptions := mapSetExisting st.parsedOptions handler.valueName ⟨oa.optionString, oa.valueName, oa.optionValues.set 0 v⟩ } := by
  unfold aggregateOption
  rw [if_pos harity, hf]
  dsimp only
  rw [hsel]

theorem aggregateOption_found_take_all (st : ScanState) (handler : OptionHandler)
    (argument v : Str) (oa : OptionArgument)
    (harity : takesValue handler.valueRequired = true)
    (hsel : handler.selection = OptionSelection.take_all)
    (hf : mapFind st.parsedOptions handler.valueName = some oa) :
    aggregateOption st handler argument v
      = { st with parsedOptions := mapSetExisting st.parsedOptions handler.valueName ⟨oa.optionString, oa.valueName, oa.optionValues ++ [v]⟩ } := by
  unfold aggregateOption
  rw [if_pos harity, hf]
  dsimp only
  rw [hsel]

theorem aggregateOption_fold_take_first (handler : OptionHandler) (argument : Str)
    (harity : takesValue handler.valueRequired = true)
    (hsel : handler.selection = OptionSelection.take_first) :
    ∀ (vs : List Str) (st : ScanState) (oa : OptionArgument),
      mapFind st.parsedOptions handler.valueName = some oa →
      mapFind ((vs.foldl (fun s v => aggregateOption s handler argument v) st)).parsedOptions
          handler.valueName = some oa := by
  intro vs
  induction vs with
  | nil => intro st oa hf; exact hf
  | cons v vs ih =>
    intro st oa hf
    rw [List.foldl_cons, aggregateOption_found_take_first st handler argument v oa harity hsel hf]
    exact ih st oa hf

theorem aggregateOption_fold_take_all (handler : OptionHandler) (argument : Str)
    (harity : takesValue handler.valueRequired = true)
    (hsel : handler.selection = OptionSelection.take_all) :
    ∀ (vs : List Str) (st : ScanState) (a n : Str) (L : List Str),
      mapFind st.parsedOptions handler.valueName = some ⟨a, n, L⟩ →
      mapFind ((vs.foldl (fun s v => aggregateOption s handler argument v) st)).parsedOptions
          handler.valueName = some ⟨a, n, L ++ vs⟩ := by
  intro vs
  induction vs with
  | nil =>
    intro st a n L hf
    rw [List.foldl_nil, hf, List.append_nil]
  | cons v vs ih =>
    intro st a n L hf
    rw [List.foldl_cons,
      aggregateOption_found_take_all st handler argument v ⟨a, n, L⟩ harity hsel hf]
    have hf' : mapFind (mapSetExisting st.parsedOptions handler.valueName ⟨a, n, L ++ [v]⟩) handler.valueName = some ⟨a, n, L ++ [v]⟩ :=
      mapFind_mapSetExisting_self st.parsedOptions handler.valueName _ (by rw [hf]; rfl)
    have := ih { st with parsedOptions := mapSetExisting st.parsedOptions handler.valueName ⟨a, n, L ++ [v]⟩ } a n (L ++ [v]) hf'
    rw [this, List.append_assoc]
    rfl

theorem aggregateOption_fold_take_last (handler : OptionHandler) (argument : Str)
    (harity : takesValue handler.valueRequired = true)
    (hsel : handler.selection = OptionSelection.take_last) :
    ∀ (vs : List Str) (st : ScanState) (a n x : Str),
      mapFind st.parsedOptions handler.valueName = some ⟨a, n, [x]⟩ →
      mapFind ((vs.foldl (fun s v => aggregateOption s handler argument v) st)).parsedOptions
          handler.valueName = some ⟨a, n, [vs.getLastD x]⟩ := by
  intro vs
  induction vs with
  | nil =>
    intro st a n x hf
    rw [List.foldl_nil, hf]
    rfl
  | cons v vs ih =>
    intro st a n x hf
    rw [List.foldl_cons,
      aggregateOption_found_take_last st handler argument v ⟨a, n, [x]⟩ harity hsel hf]
    have hset : ([x] : List Str).set 0 v = [v] := rfl
    have hf' : mapFind (mapSetExisting st.parsedOptions handler.valueName ⟨a, n, ([x] : List Str).set 0 v⟩) handler.valueName = some ⟨a, n, [v]⟩ := by
      rw [hset]
      exact mapFind_mapSetExisting_self st.parsedOptions handler.valueName _ (by rw [hf]; rfl)
    have := ih { st with parsedOptions := mapSetExisting st.parsedOptions handler.valueName ⟨a, n, ([x] : List Str).set 0 v⟩ } a n v (by rw [hset] at hf' ⊢; exact hf')
    rw [this, List.getLastD_cons]

end SelectionLemmas


/-- C3: for a flag of optional or required arity, the first resolved
occurrence inserts a fresh entry keyed by the value name holding the
singleton list of its value, and folding the later resolved occurrences
through the result-aggregation step leaves [v1] under take_first, the last
value alone under take_last, and all values in occurrence order under
take_all. -/
theorem argparse_C3_theorem (handler : OptionHandler) (st : ScanState)
    (argument v1 : Str) (vs : List Str)
    (harity : takesValue handler.valueRequired = true)
    (habsent : mapFind st.parsedOptions handler.valueName = none) :
    mapFind (aggregateOption st handler argument v1).parsedOptions handler.valueName
      = some ⟨argument, handler.valueName, [v1]⟩ ∧
    mapFind ((vs.foldl (fun s v => aggregateOption s handler argument v)
        (aggregateOption st handler argument v1))).parsedOptions handler.valueName
      = some ⟨argument, handler.valueName,
          match handler.selection with
          | OptionSelection.take_first => [v1]
          | OptionSelection.take_last => [vs.getLastD v1]
          | OptionSelection.take_all => v1 :: vs⟩ := by
  have hfirst : mapFind (aggregateOption st handler argument v1).parsedOptions handler.valueName
      = some ⟨argument, handler.valueName, [v1]⟩ := by
    unfold aggregateOption
    rw [if_pos harity, habsent]
    dsimp only
    exact mapFind_mapInsertNew_absent st.parsedOptions handler.valueName _ habsent
  refine ⟨hfirst, ?rest⟩
  cases hsel : handler.selection with
  | take_first =>
    exact aggregateOption_fold_take_first handler argument harity hsel vs _ _ hfirst
  | take_last =>
    exact aggregateOption_fold_take_last handler argument harity hsel vs _ argument
      handler.valueName v1 hfirst
  | take_all =>
    have := aggregateOption_fold_take_all handler argument harity hsel vs _ argument
      handler.valueName [v1] hfirst
    rw [this]
    rfl

theorem argparse_C3_witness :
    mapFind ((([("b").data, ("c").data] : List Str).foldl
        (fun s v => aggregateOption s ⟨[], ("tag").data, OptionValue.required, OptionSelection.take_all, [], false⟩ ("--tag").data v)
        (aggregateOption ⟨[], [], [], []⟩ ⟨[], ("tag").data, OptionValue.required, OptionSelection.take_all, [], false⟩ ("--tag").data ("a").data))).parsedOptions ("tag").data
      = some ⟨("--tag").data, ("tag").data, [("a").data, ("b").data, ("c").data]⟩ :=
  (argparse_C3_theorem ⟨[], ("tag").data, OptionValue.required, OptionSelection.take_all, [], false⟩
    ⟨[], [], [], []⟩ ("--tag").data ("a").data [("b").data, ("c").data]
    (by decide) (by decide)).2

/-- C5 (amended): addOption rejects exactly the bare dash strings "-" and
"--" with the more-than-the-prefix invalid-option error and leaves the
registry untouched; a string of one dash followed by a single non-dash
character is not rejected but normalized by prepending one more dash. -/
theorem argparse_C5_theorem (p : ArgumentParser) (valueName : Str) (required : Bool)
    (helpString : Str) (valueRequired : OptionValue) (selection : OptionSelection)
    (defaultValue : Str) :
    p.addOption (['-'] : Str) valueName required helpString valueRequired selection defaultValue
      = (some msgOnlyDashes, p) ∧
    p.addOption (['-', '-'] : Str) valueName required helpString valueRequired selection defaultValue
      = (some msgOnlyDashes, p) ∧
    (∀ c : Char, c ≠ '-' → normalizeOptionString ['-', c] = Except.ok ['-', '-', c]) := by
  refine ⟨?one, ?two, ?norm⟩
  · unfold ArgumentParser.addOption
    rw [show normalizeOptionString (['-'] : Str) = Except.error msgOnlyDashes from rfl]
  · unfold ArgumentParser.addOption
    rw [show normalizeOptionString (['-', '-'] : Str) = Except.error msgOnlyDashes from rfl]
  · intro c hc
    simp only [normalizeOptionString]
    rw [if_pos trivial, if_neg hc]

/-- C5: the claim is false for "-n": addOption does not fail on a
single-dash single-character flag string; it registers it under the
canonical flag "--n". -/
theorem argparse_C5_counterexample :
    (({} : ArgumentParser).addOption ("-n").data ("nval").data false []
      OptionValue.required OptionSelection.take_last []).1 = Option.none ∧
    mapFind (({} : ArgumentParser).addOption ("-n").data ("nval").data false []
      OptionValue.required OptionSelection.take_last []).2.optionsHandlerMap ("--n").data
      = some ⟨[], ("nval").data, OptionValue.required, OptionSelection.take_last, [], false⟩ := by
  decide

/-- C7: normalization in addOption is idempotent on already-normalized flags
(two leading dashes and at least one more character), and the spellings
"name", "-name" and "--name" all normalize to the canonical flag
"--name". -/
theorem argparse_C7_theorem :
    (∀ (c : Char) (r : List Char),
      normalizeOptionString ('-' :: '-' :: c :: r) = Except.ok ('-' :: '-' :: c :: r)) ∧
    normalizeOptionString ("name").data = Except.ok ("--name").data ∧
    normalizeOptionString ("-name").data = Except.ok ("--name").data ∧
    normalizeOptionString ("--name").data = Except.ok ("--name").data := by
  refine ⟨?idem, rfl, rfl, rfl⟩
  intro c r
  rfl

/-- C9: clear() empties the parsed options and the non-option arguments and
resets every required flag's seen marker to false, while the handler map,
the claimed value names and the set of required-tracked flags are exactly
unchanged. -/
theorem argparse_C9_theorem (p : ArgumentParser) :
    p.clear.optionsHandlerMap = p.optionsHandlerMap ∧
    p.clear.optionsValueNames = p.optionsValueNames ∧
    p.clear.parsedOptions = [] ∧
    p.clear.nonOptionArguments = [] ∧
    p.clear.requiredOptions.map Prod.fst = p.requiredOptions.map Prod.fst ∧
    (∀ kv ∈ p.clear.requiredOptions, kv.2 = false) ∧
    p.clear.applicationDescription = p.applicationDescription := by
  refine ⟨rfl, rfl, rfl, rfl, ?keys, ?vals, rfl⟩
  · unfold ArgumentParser.clear
    dsimp only
    rw [List.map_map]
    rfl
  · intro kv hkv
    unfold ArgumentParser.clear at hkv
    dsimp only at hkv
    obtain ⟨kv0, hkv0, hkveq⟩ := List.mem_map.mp hkv
    rw [← hkveq]

/-- C10: addOption is atomic on failure: whenever it returns an error (for
any of its rejection reasons), the registry state it returns is exactly the
state it was given; every throw happens before any mutation. -/
theorem argparse_C10_theorem (p : ArgumentParser) (optionString valueName : Str)
    (required : Bool) (helpString : Str) (valueRequired : OptionValue)
    (selection : OptionSelection) (defaultValue : Str) (e : Str)
    (h : (p.addOption optionString valueName required helpString valueRequired
      selection defaultValue).1 = some e) :
    (p.addOption optionString valueName required helpString valueRequired
      selection defaultValue).2 = p := by
  have hcases : (p.addOption optionString valueName required helpString valueRequired
        selection defaultValue).1 = Option.none ∨
      (p.addOption optionString valueName required helpString valueRequired
        selection defaultValue).2 = p := by
    unfold ArgumentParser.addOption ArgumentParser.storeOption
    split
    · exact Or.inr rfl
    · split
      · exact Or.inr rfl
      · split
        · split
          · exact Or.inr rfl
          · split
            · exact Or.inr rfl
            · split
              · split
                · exact Or.inr rfl
                · split
                  · exact Or.inr rfl
                  · exact Or.inl rfl
              · split
                · exact Or.inr rfl
                · exact Or.inl rfl
        · split
          · exact Or.inr rfl
          · split
            · exact Or.inr rfl
            · exact Or.inl rfl
  rcases hcases with hn | hp
  · rw [h] at hn
    exact Option.noConfusion hn
  · exact hp

theorem argparse_C10_witness :
    (({} : ArgumentParser).addOption ("--help").data [] false []
      OptionValue.none OptionSelection.take_last []).2 = ({} : ArgumentParser) :=
  argparse_C10_theorem {} ("--help").data [] false [] OptionValue.none
    OptionSelection.take_last [] msgHelpReserved (by decide)

/-- C1: the claim is false on the code: when the only occurrence of the
required-arity required flag --in is the last token, the scan emits the
diagnostic and skips the occurrence with `continue`, which also skips the
seen marking, so parseArguments still reports --in missing (the claim said
the occurrence still marks the flag seen). -/
theorem argparse_C1_counterexample :
    (demoParserIn.parseArguments 2
        (argvStr [some ("prog").data, some ("--in").data, none]) true).1
      = ParseOutcome.thrownMissingRequired [("--in").data] ∧
    mapFind (demoParserIn.parseArguments 2
        (argvStr [some ("prog").data, some ("--in").data, none]) true).2.1.requiredOptions
        ("--in").data = some false ∧
    (demoParserIn.parseArguments 2
        (argvStr [some ("prog").data, some ("--in").data, none]) true).2.2
      = [msgMissingValue ("--in").data] := by
  decide

/-- C1 (amended): for a registered flag of required arity whose occurrence
has no following token (a null slot, in particular the end of the list),
the scan emits the required-value diagnostic and continues at the next
index with the state otherwise unchanged: no value is inserted for the
occurrence and the flag's seen marker is not set, so the occurrence still
counts as missing for the end-of-scan check. -/
theorem argparse_C1_theorem (handlers : List (Str × OptionHandler)) (argc : Nat)
    (argv : Nat → Option Str) (fuel index : Nat) (st : ScanState) (flag : Str)
    (handler : OptionHandler)
    (hidx : index < argc)
    (hargv : argv index = some flag)
    (hdd : startsDashDash flag = true)
    (hhelp : eqIgnoreCase helpChars flag = false)
    (hfind : mapFind handlers flag = some handler)
    (harity : handler.valueRequired = OptionValue.required)
    (hnext : argv (index + 1) = none) :
    scanLoop handlers argc argv (fuel + 1) index st
      = scanLoop handlers argc argv fuel (index + 1)
          (addDiagnostic st (msgMissingValue flag)) := by
  have hstep : scanStep handlers argv index st
      = StepOut.advance 0 (addDiagnostic st (msgMissingValue flag)) := by
    unfold scanStep
    rw [hargv]
    dsimp only
    rw [if_pos hdd, if_neg (by rw [hhelp]; exact Bool.false_ne_true), hfind]
    dsimp only
    rw [harity]
    dsimp only
    rw [hnext]
  simp only [scanLoop]
  rw [if_pos hidx, hstep]

theorem argparse_C1_witness :
    scanLoop demoParserIn.optionsHandlerMap 2
        (argvStr [some ("prog").data, some ("--in").data, none]) 1 1
        ⟨demoParserIn.requiredOptions, [], [], []⟩
      = scanLoop demoParserIn.optionsHandlerMap 2
        (argvStr [some ("prog").data, some ("--in").data, none]) 0 2
        (addDiagnostic ⟨demoParserIn.requiredOptions, [], [], []⟩
          (msgMissingValue ("--in").data)) :=
  argparse_C1_theorem demoParserIn.optionsHandlerMap 2
    (argvStr [some ("prog").data, some ("--in").data, none]) 0 1
    ⟨demoParserIn.requiredOptions, [], [], []⟩ ("--in").data demoHandlerIn
    (by decide) (by decide) (by decide) (by decide) (by decide) (by decide) (by decide)

/-- C6: the typed extraction valueAs (modelled from the spec; it is absent
from src/ArgumentParser.hpp) fails with the index-out-of-range error exactly
when the index is not below size(); on a stored decimal string it returns
the numeric value when it fits the type's range and saturates to the
maximum (or, for negative inputs, to the minimum) when it does not; in
particular "42" yields 42 and "99999999999999" yields the 32-bit maximum
2147483647. -/
theorem argparse_C6_theorem :
    (∀ (minT maxT : Int) (oa : OptionArgument) (index : Nat),
      (oa.valueAsInt minT maxT index = Except.error msgIndexOutOfRange ↔ oa.size ≤ index)) ∧
    (∀ (minT maxT : Int) (ds : List Char), ds ≠ [] → (∀ c ∈ ds, digitVal c < 10) →
      ds.head? ≠ some '0' → minT ≤ 0 →
      ((decimalValue ds : Int) ≤ maxT → parseSaturatingInt minT maxT ds = decimalValue ds) ∧
      (maxT < (decimalValue ds : Int) → parseSaturatingInt minT maxT ds = maxT)) ∧
    (∀ (minT maxT : Int) (ds : List Char), ds ≠ [] → (∀ c ∈ ds, digitVal c < 10) →
      ds.head? ≠ some '0' → 0 ≤ maxT →
      (minT ≤ -(decimalValue ds : Int) →
        parseSaturatingInt minT maxT ('-' :: ds) = -(decimalValue ds : Int)) ∧
      (-(decimalValue ds : Int) < minT →
        parseSaturatingInt minT maxT ('-' :: ds) = minT)) ∧
    OptionArgument.valueAsInt ⟨("--num").data, ("num").data, [("42").data]⟩
      (-2147483648) 2147483647 0 = Except.ok 42 ∧
    OptionArgument.valueAsInt ⟨("--num").data, ("num").data, [("99999999999999").data]⟩
      (-2147483648) 2147483647 0 = Except.ok 2147483647 ∧
    OptionArgument.valueAsInt ⟨("--num").data, ("num").data, [("42").data]⟩
      (-2147483648) 2147483647 1 = Except.error msgIndexOutOfRange := by
  refine ⟨?err, fun minT maxT ds h1 h2 h3 h4 => parseSaturatingInt_decimal minT maxT ds h1 h2 h3 h4,
    fun minT maxT ds h1 h2 h3 h4 => parseSaturatingInt_negativeDecimal minT maxT ds h1 h2 h3 h4,
    rfl, rfl, rfl⟩
  intro minT maxT oa index
  unfold OptionArgument.valueAsInt OptionArgument.size
  cases hg : oa.optionValues.get? index with
  | some s =>
    dsimp only
    constructor
    · intro he
      exact absurd he (by simp)
    · intro hle
      rw [List.get?_eq_none.mpr hle] at hg
      exact Option.noConfusion hg
  | none =>
    dsimp only
    constructor
    · intro _
      exact List.get?_eq_none.mp hg
    · intro _
      rfl

/-- parseArguments, unfolded past the sentinel check. -/
theorem parseArguments_eq (p : ArgumentParser) (argc : Nat) (argv : Nat → Option Str)
    (throwOnMissingOptions : Bool) (hsentinel : argv argc = none) :
    p.parseArguments argc argv throwOnMissingOptions
      = match scanLoop p.optionsHandlerMap argc argv argc 1
          ⟨p.requiredOptions, p.parsedOptions, p.nonOptionArguments, []⟩ with
        | ScanResult.help st => (ParseOutcome.helpExit, p.applyScan st, st.diagnostics)
        | ScanResult.malformed st =>
          (ParseOutcome.thrownInvalidArgument msgNullMiddle, p.applyScan st, st.diagnostics)
        | ScanResult.done st =>
          if ((st.requiredOptions.filter (fun kv => !kv.2)).map Prod.fst).isEmpty then
            (ParseOutcome.normalReturn, p.applyScan st, st.diagnostics)
          else if throwOnMissingOptions then
            (ParseOutcome.thrownMissingRequired
              ((st.requiredOptions.filter (fun kv => !kv.2)).map Prod.fst),
              p.applyScan st, st.diagnostics)
          else
            (ParseOutcome.exitFailure
              ((st.requiredOptions.filter (fun kv => !kv.2)).map Prod.fst),
              p.applyScan st, st.diagnostics) := by
  unfold ArgumentParser.parseArguments
  rw [hsentinel]
  rfl

/-- C2: the claim as stated is false: a help token examined before the null
slot makes parseArguments exit through the help path instead of failing
with the malformed-argument-list error, and a non-null sentinel slot
argv[argc] makes it throw the last-argument-must-be-NULL error without
clearing any previously accumulated derived state. -/
theorem argparse_C2_counterexample :
    (demoParserIn.parseArguments 3
        (argvStr [some ("prog").data, some ("--help").data, none, none]) true).1
      = ParseOutcome.helpExit ∧
    (demoParserPrior.parseArguments 2
        (argvStr [some ("prog").data, none, some ("x").data]) true).1
      = ParseOutcome.thrownInvalidArgument msgLastArgNull ∧
    (demoParserPrior.parseArguments 2
        (argvStr [some ("prog").data, none, some ("x").data]) true).2.1.parsedOptions
      ≠ [] := by
  decide

/-- C2 (amended): for an argument array whose sentinel argv[argc] is null,
with a null slot at some position strictly between 0 and argc, and no help
token among positions 1..argc-1, parseArguments throws the
malformed-argument-list error and first restores the derived state: the
parsed-option map and positional list are empty, every required flag's seen
marker is false, and the registered declarations and claimed value names
are unchanged. -/
theorem argparse_C2_theorem (p : ArgumentParser) (argc : Nat) (argv : Nat → Option Str)
    (throwOnMissingOptions : Bool)
    (hsentinel : argv argc = none)
    (hnohelp : ∀ j t, 1 ≤ j → j < argc → argv j = some t → eqIgnoreCase helpChars t = false)
    (hnullslot : ∃ k, 1 ≤ k ∧ k < argc ∧ argv k = none) :
    (p.parseArguments argc argv throwOnMissingOptions).1
      = ParseOutcome.thrownInvalidArgument msgNullMiddle ∧
    (p.parseArguments argc argv throwOnMissingOptions).2.1.parsedOptions = [] ∧
    (p.parseArguments argc argv throwOnMissingOptions).2.1.nonOptionArguments = [] ∧
    (p.parseArguments argc argv throwOnMissingOptions).2.1.requiredOptions
      = p.requiredOptions.map (fun kv => (kv.1, false)) ∧
    (p.parseArguments argc argv throwOnMissingOptions).2.1.optionsHandlerMap
      = p.optionsHandlerMap ∧
    (p.parseArguments argc argv throwOnMissingOptions).2.1.optionsValueNames
      = p.optionsValueNames := by
  obtain ⟨stf, hrun, hkeys⟩ := scanLoop_hits_null p.optionsHandlerMap argc argv argc 1
    ⟨p.requiredOptions, p.parsedOptions, p.nonOptionArguments, []⟩ (by omega) hnohelp hnullslot
  have hres : p.parseArguments argc argv throwOnMissingOptions
      = (ParseOutcome.thrownInvalidArgument msgNullMiddle,
        p.applyScan (clearScanState stf), (clearScanState stf).diagnostics) := by
    rw [parseArguments_eq p argc argv throwOnMissingOptions hsentinel, hrun]
  rw [hres]
  refine ⟨rfl, rfl, rfl, ?req, rfl, rfl⟩
  show (clearScanState stf).requiredOptions = p.requiredOptions.map (fun kv => (kv.1, false))
  unfold clearScanState
  dsimp only
  have h1 := congrArg (List.map (fun k : Str => (k, false))) hkeys
  rw [List.map_map, List.map_map] at h1
  exact h1

theorem argparse_C2_witness :
    (demoParserIn.parseArguments 2 (argvStr [some ("prog").data, none, none]) true).1
      = ParseOutcome.thrownInvalidArgument msgNullMiddle :=
  (argparse_C2_theorem demoParserIn 2 (argvStr [some ("prog").data, none, none]) true
    (by decide)
    (by
      intro j t h1 h2 hj
      interval_cases j
      have hnone : (none : Option Str) = some t := by
        rw [← hj]
        decide
      exact Option.noConfusion hnone)
    ⟨1, by decide, by decide, by decide⟩).1

/-- C8: the claim as stated is false: an argument list containing a help
token makes parseArguments exit through the help path even though the
registered required flag --in is absent and the throw-on-missing mode is
selected, so no missing-required-option error is raised. -/
theorem argparse_C8_counterexample :
    (demoParserIn.parseArguments 2
        (argvStr [some ("prog").data, some ("--help").data, none]) true).1
      = ParseOutcome.helpExit := by
  decide

/-- C8 (amended): if a flag is tracked as required and unseen, and a
well-formed argument list (null sentinel, no interior null, no help token)
not containing that flag is parsed in throw mode, parseArguments throws the
missing-required-option error whose list contains the flag; for the
registry holding the single required flag --in and a list lacking it, that
list is exactly ["--in"]. -/
theorem argparse_C8_theorem (p : ArgumentParser) (argc : Nat) (argv : Nat → Option Str)
    (flag : Str)
    (hreq : mapFind p.requiredOptions flag = some false)
    (hsentinel : argv argc = none)
    (hnonull : ∀ j, 1 ≤ j → j < argc → (argv j).isSome)
    (hnohelp : ∀ j t, 1 ≤ j → j < argc → argv j = some t → eqIgnoreCase helpChars t = false)
    (habsent : ∀ j, 1 ≤ j → j < argc → argv j ≠ some flag) :
    (∃ missing, (p.parseArguments argc argv true).1
        = ParseOutcome.thrownMissingRequired missing ∧ flag ∈ missing) ∧
    (demoParserIn.parseArguments 2
        (argvStr [some ("prog").data, some ("pos1").data, none]) true).1
      = ParseOutcome.thrownMissingRequired [("--in").data] := by
  refine ⟨?gen, by decide⟩
  obtain ⟨stf, hrun, hkeys, hpre, htrue⟩ := scanLoop_completes p.optionsHandlerMap argc argv
    argc 1 ⟨p.requiredOptions, p.parsedOptions, p.nonOptionArguments, []⟩
    (by omega) hnonull hnohelp
  have hflag : mapFind stf.requiredOptions flag = some false := by
    rw [hpre flag habsent]
    exact hreq
  have hmem : (flag, false) ∈ stf.requiredOptions := mapFind_mem _ _ _ hflag
  have hfmem : (flag, false) ∈ stf.requiredOptions.filter (fun kv => !kv.2) :=
    List.mem_filter.mpr ⟨hmem, rfl⟩
  have hmm : flag ∈ (stf.requiredOptions.filter (fun kv => !kv.2)).map Prod.fst :=
    List.mem_map_of_mem Prod.fst hfmem
  have hne : ((stf.requiredOptions.filter (fun kv => !kv.2)).map Prod.fst).isEmpty = false := by
    cases hE : ((stf.requiredOptions.filter (fun kv => !kv.2)).map Prod.fst).isEmpty
    · rfl
    · exfalso
      rw [List.isEmpty_iff] at hE
      rw [hE] at hmm
      exact absurd hmm (List.not_mem_nil flag)
  refine ⟨(stf.requiredOptions.filter (fun kv => !kv.2)).map Prod.fst, ?out, hmm⟩
  rw [parseArguments_eq p argc argv true hsentinel, hrun]
  dsimp only
  rw [if_neg (by rw [hne]; exact Bool.false_ne_true), if_pos rfl]

theorem argparse_C8_witness :
    ∃ missing, (demoParserIn.parseArguments 2
        (argvStr [some ("prog").data, some ("pos1").data, none]) true).1
      = ParseOutcome.thrownMissingRequired missing ∧ ("--in").data ∈ missing :=
  (argparse_C8_theorem demoParserIn 2
    (argvStr [some ("prog").data, some ("pos1").data, none]) ("--in").data
    (by decide) (by decide)
    (by
      intro j h1 h2
      interval_cases j
      decide)
    (by
      intro j t h1 h2 hj
      interval_cases j
      have ht : some (("pos1").data) = some t := by
        rw [← hj]
        decide
      cases ht
      decide)
    (by
      intro j h1 h2 hcontra
      interval_cases j
      exact absurd hcontra (by decide))).1

/-- C4: the claim as stated is false: in `prog --a --in v` with --a of
required arity, the scan consumes the token `--in` as the value of --a, so
the required flag --in, although it occurs followed by the value token `v`,
is never examined as a flag; parseArguments signals it missing instead of
returning normally. -/
theorem argparse_C4_counterexample :
    (demoParserSwallow.parseArguments 4
        (argvStr [some ("prog").data, some ("--a").data, some ("--in").data,
          some ("v").data, none]) true).1
      = ParseOutcome.thrownMissingRequired [("--in").data] ∧
    (demoParserSwallow.parseArguments 4
        (argvStr [some ("prog").data, some ("--a").data, some ("--in").data,
          some ("v").data, none]) true).2.1.hasParsedOption ("--in").data = false := by
  decide

/-- C4 (amended): for a registry built by addOption (canonical flags, no
reserved help flag, value names tied to arity, required keys registered and
distinct) and a well-formed argument array (null sentinel, no interior
null) in which every flag token is registered, every occurrence of a
required-arity registered flag is followed by a token that is not itself a
flag token, and every required flag occurs, parseArguments returns
normally and hasParsedOption holds for every required flag. -/
theorem argparse_C4_theorem (p : ArgumentParser) (argc : Nat) (argv : Nat → Option Str)
    (throwOnMissingOptions : Bool)
    (hW1 : ∀ kv ∈ p.optionsHandlerMap,
      startsDashDash (Prod.fst kv) = true ∧ eqIgnoreCase helpChars (Prod.fst kv) = false)
    (hW2 : ∀ kv ∈ p.optionsHandlerMap,
      ((Prod.snd kv).valueName = ([] : Str) ↔ (Prod.snd kv).valueRequired = OptionValue.none))
    (hW3 : ∀ kv ∈ p.requiredOptions, (mapFind p.optionsHandlerMap (Prod.fst kv)).isSome)
    (hnodup : (p.requiredOptions.map Prod.fst).Nodup)
    (hsentinel : argv argc = none)
    (hnonull : ∀ j, 1 ≤ j → j < argc → (argv j).isSome)
    (hreg : ∀ j t, 1 ≤ j → j < argc → argv j = some t → startsDashDash t = true →
      (mapFind p.optionsHandlerMap t).isSome)
    (hreqnext : ∀ j t handler, 1 ≤ j → j < argc → argv j = some t →
      mapFind p.optionsHandlerMap t = some handler →
      handler.valueRequired = OptionValue.required →
      ∃ nt, argv (j + 1) = some nt ∧ startsDashDash nt = false)
    (hoccur : ∀ f b, mapFind p.requiredOptions f = some b →
      ∃ j, 1 ≤ j ∧ j < argc ∧ argv j = some f) :
    (p.parseArguments argc argv throwOnMissingOptions).1 = ParseOutcome.normalReturn ∧
    (∀ f b, mapFind p.requiredOptions f = some b →
      (p.parseArguments argc argv throwOnMissingOptions).2.1.hasParsedOption f = true) := by
  have hW1m : ∀ f handler, mapFind p.optionsHandlerMap f = some handler →
      startsDashDash f = true ∧ eqIgnoreCase helpChars f = false := by
    intro f handler hf
    exact hW1 (f, handler) (mapFind_mem _ _ _ hf)
  have hreg2 : ∀ j t, 1 ≤ j → j < argc → argv j = some t → startsDashDash t = true →
      (mapFind p.optionsHandlerMap t).isSome ∧ eqIgnoreCase helpChars t = false := by
    intro j t h1 h2 hj hd
    have hs := hreg j t h1 h2 hj hd
    obtain ⟨h0, hf0⟩ := Option.isSome_iff_exists.mp hs
    exact ⟨hs, (hW1m t h0 hf0).2⟩
  obtain ⟨stf, hrun, hkeys, htrue, hmark, hmono, hkey⟩ :=
    scanLoop_marks_all p.optionsHandlerMap argc argv hW1m argc 1
      ⟨p.requiredOptions, p.parsedOptions, p.nonOptionArguments, []⟩
      (by omega) hnonull hreg2 hreqnext
  have hall : ∀ kv ∈ stf.requiredOptions, Prod.snd kv = true := by
    intro kv hkv
    have hkeymem : Prod.fst kv ∈ stf.requiredOptions.map Prod.fst :=
      List.mem_map_of_mem Prod.fst hkv
    rw [hkeys] at hkeymem
    have hps : (mapFind p.requiredOptions (Prod.fst kv)).isSome :=
      (mapFind_isSome_iff_mem_keys p.requiredOptions (Prod.fst kv)).mpr hkeymem
    obtain ⟨b, hb⟩ := Option.isSome_iff_exists.mp hps
    have hocc := hoccur (Prod.fst kv) b hb
    have hstart : (mapFind p.optionsHandlerMap (Prod.fst kv)).isSome :=
      hW3 (Prod.fst kv, b) (mapFind_mem _ _ _ hb)
    have hfinal : mapFind stf.requiredOptions (Prod.fst kv) = some true :=
      hmark (Prod.fst kv) (by rw [hb]; rfl) hocc hstart
    have hnd2 : (stf.requiredOptions.map Prod.fst).Nodup := by
      rw [hkeys]
      exact hnodup
    have hself : mapFind stf.requiredOptions (Prod.fst kv) = some (Prod.snd kv) :=
      mapFind_of_mem_nodup stf.requiredOptions (Prod.fst kv) (Prod.snd kv) hnd2
        (by rw [Prod.mk.eta]; exact hkv)
    rw [hself] at hfinal
    exact Option.some.inj hfinal
  have hmissing : ((stf.requiredOptions.filter (fun kv => !kv.2)).map Prod.fst).isEmpty = true := by
    have hnil : stf.requiredOptions.filter (fun kv => !kv.2) = [] := by
      rw [List.filter_eq_nil_iff]
      intro kv hkv
      rw [hall kv hkv]
      decide
    rw [hnil]
    rfl
  have hres : p.parseArguments argc argv throwOnMissingOptions
      = (ParseOutcome.normalReturn, p.applyScan stf, stf.diagnostics) := by
    rw [parseArguments_eq p argc argv throwOnMissingOptions hsentinel, hrun]
    dsimp only
    rw [if_pos hmissing]
  refine ⟨by rw [hres], ?has⟩
  intro f b hfb
  rw [hres]
  obtain ⟨handler_f, hfind_f⟩ :=
    Option.isSome_iff_exists.mp (hW3 (f, b) (mapFind_mem _ _ _ hfb))
  have hW1f := hW1m f handler_f hfind_f
  have hW2f : handler_f.valueName = ([] : Str) ↔ handler_f.valueRequired = OptionValue.none :=
    hW2 (f, handler_f) (mapFind_mem _ _ _ hfind_f)
  dsimp only
  unfold ArgumentParser.hasParsedOption
  dsimp only [ArgumentParser.applyScan]
  rw [if_pos hW1f.1, hfind_f]
  dsimp only
  have hp := hkey f handler_f hfind_f (hoccur f b hfb)
  by_cases hvn : handler_f.valueName = ([] : Str)
  · rw [if_pos hvn]
    have harN := hW2f.mp hvn
    rw [harN] at hp
    simp only [takesValue] at hp
    rw [if_neg Bool.false_ne_true] at hp
    exact hp
  · rw [if_neg hvn]
    have htv : takesValue handler_f.valueRequired = true := by
      cases hv : handler_f.valueRequired
      · exact absurd (hW2f.mpr hv) hvn
      · rfl
      · rfl
    rw [if_pos htv] at hp
    exact hp

theorem argparse_C4_witness :
    (demoParserIn.parseArguments 3
        (argvStr [some ("prog").data, some ("--in").data, some ("v").data, none]) true).1
      = ParseOutcome.normalReturn :=
  (argparse_C4_theorem demoParserIn 3
    (argvStr [some ("prog").data, some ("--in").data, some ("v").data, none]) true
    (by decide) (by decide) (by decide) (by decide) (by decide)
    (by
      intro j h1 h2
      interval_cases j
      · decide
      · decide)
    (by
      intro j t h1 h2 hj hd
      interval_cases j
      · have ht : some (("--in").data) = some t := by
          rw [← hj]
          decide
        cases ht
        decide
      · have ht : some (("v").data) = some t := by
          rw [← hj]
          decide
        cases ht
        exact absurd hd (by decide))
    (by
      intro j t handler h1 h2 hj hf hr
      interval_cases j
      · have ht : some (("--in").data) = some t := by
          rw [← hj]
          decide
        cases ht
        have hh : some demoHandlerIn = some handler := by
          rw [← hf]
          decide
        cases hh
        exact ⟨("v").data, by decide, by decide⟩
      · have ht : some (("v").data) = some t := by
          rw [← hj]
          decide
        cases ht
        have hh : (none : Option OptionHandler) = some handler := by
          rw [← hf]
          decide
        exact Option.noConfusion hh)
    (by
      intro f b hf
      simp only [demoParserIn, mapFind] at hf
      split at hf
      next heq =>
        refine ⟨1, by omega, by omega, ?occ⟩
        rw [heq]
        decide
      next heq =>
        exact Option.noConfusion hf)).1
